import Mathlib

/-!
Asset chaincode (`chaincode/smartcontract.go`): embedding and verified properties.

The Go package `chaincode` is a thin asset registry over the ledger stub of the
contract API.  This development embeds

* Go strings and byte slices as lists of bytes (`Bytes`),
* the part of `unicode/utf8`, `strconv`, `strings` and `encoding/json` that the
  contract calls (`json.Marshal` of an `Asset`, `json.Unmarshal` into a `*Asset`,
  `strings.ToLower`),
* the ledger stub (`GetState`, `PutState`, `GetStateByRange` and its iterator),
* the six contract methods `CreateAsset`, `ReadAsset`, `AssetExists`,
  `TransferAsset`, `GetAssetByCat`, `GetAllAssets`,

and proves properties of the methods.
-/

set_option autoImplicit false

namespace Chaincode

/-! ## Bytes and UTF-8 (`unicode/utf8`) -/

/-- A Go `string` or `[]byte`: a sequence of bytes, each a natural number below 256.
Go strings are arbitrary byte sequences; they need not be valid UTF-8. -/
abbrev Bytes := List Nat

/-- The bytes of an ASCII string literal. -/
def ascii (s : String) : Bytes := s.data.map Char.toNat

/-- The constant `utf8.RuneError`, U+FFFD. -/
def runeError : Nat := 0xFFFD

/-- Size of the UTF-8 sequence announced by a lead byte (table `first` of `unicode/utf8`);
0 for a byte that cannot start a sequence. -/
def leadSize (b : Nat) : Nat :=
  if b < 0x80 then 1
  else if b < 0xC2 then 0
  else if b < 0xE0 then 2
  else if b < 0xF0 then 3
  else if b < 0xF5 then 4
  else 0

/-- Lower bound of the accepted range of the second byte (table `acceptRanges`). -/
def acceptLo (s0 : Nat) : Nat :=
  if s0 = 0xE0 then 0xA0 else if s0 = 0xF0 then 0x90 else 0x80

/-- Upper bound of the accepted range of the second byte (table `acceptRanges`). -/
def acceptHi (s0 : Nat) : Nat :=
  if s0 = 0xED then 0x9F else if s0 = 0xF4 then 0x8F else 0xBF

/-- A continuation byte, `locb ≤ b ≤ hicb`. -/
def isCont (b : Nat) : Bool := decide (0x80 ≤ b) && decide (b ≤ 0xBF)

/-- The second byte lies in the range accepted after lead byte `s0`. -/
def accepts (s0 s1 : Nat) : Bool := decide (acceptLo s0 ≤ s1) && decide (s1 ≤ acceptHi s0)

/-- The function `utf8.DecodeRune`: the first rune of `s` and its width in bytes;
`(RuneError, 1)` for an invalid or truncated sequence, `(RuneError, 0)` for empty input. -/
def decodeRune : Bytes → Nat × Nat
  | [] => (runeError, 0)
  | s0 :: t =>
    if s0 < 0x80 then (s0, 1)
    else
      match leadSize s0, t with
      | 2, s1 :: _ =>
        if accepts s0 s1 then (s0 % 32 * 64 + s1 % 64, 2) else (runeError, 1)
      | 3, s1 :: s2 :: _ =>
        if accepts s0 s1 && isCont s2 then (s0 % 16 * 4096 + s1 % 64 * 64 + s2 % 64, 3)
        else (runeError, 1)
      | 4, s1 :: s2 :: s3 :: _ =>
        if accepts s0 s1 && isCont s2 && isCont s3 then
          (s0 % 8 * 262144 + s1 % 64 * 4096 + s2 % 64 * 64 + s3 % 64, 4)
        else (runeError, 1)
      | _, _ => (runeError, 1)

/-- The function `utf8.EncodeRune` / `utf8.AppendRune`: the UTF-8 bytes of a rune; surrogates
and values above `utf8.MaxRune` are written as U+FFFD. -/
def encodeRune (r : Nat) : Bytes :=
  if r ≤ 0x7F then [r]
  else if r ≤ 0x7FF then [0xC0 + r / 64, 0x80 + r % 64]
  else if 0x10FFFF < r ∨ (0xD800 ≤ r ∧ r ≤ 0xDFFF) then [0xEF, 0xBF, 0xBD]
  else if r ≤ 0xFFFF then [0xE0 + r / 4096, 0x80 + r / 64 % 64, 0x80 + r % 64]
  else [0xF0 + r / 262144, 0x80 + r / 4096 % 64, 0x80 + r / 64 % 64, 0x80 + r % 64]

/-- Worker of `validUTF8`: `skip` bytes of the current sequence remain to be passed over. -/
def validUTF8.go : Nat → Bytes → Bool
  | skip, [] => skip == 0
  | skip + 1, _ :: t => validUTF8.go skip t
  | 0, b :: t =>
    if b < 0x80 then validUTF8.go 0 t
    else
      let size := (decodeRune (b :: t)).2
      if size == 1 then false else validUTF8.go (size - 1) t

/-- The function `utf8.Valid`: the bytes are a sequence of well-formed UTF-8 encodings. -/
def validUTF8 (s : Bytes) : Bool := validUTF8.go 0 s

/-! ## Numbers (`strconv`) -/

/-- Decimal digits of `n`, most significant first, prepended to `acc`. -/
def digitsAux : Nat → Nat → Bytes → Bytes
  | 0, _, acc => acc
  | fuel + 1, n, acc =>
    if n < 10 then (48 + n) :: acc
    else digitsAux fuel (n / 10) ((48 + n % 10) :: acc)

/-- Decimal representation of a natural number, as ASCII digits. -/
def formatNat (n : Nat) : Bytes := digitsAux (n + 1) n []

/-- The function `strconv.AppendInt(dst, v, 10)`: decimal representation with a leading `-` for
negative values. -/
def formatInt (v : Int) : Bytes :=
  if v < 0 then 45 :: formatNat v.natAbs else formatNat v.natAbs

/-- The value range of the Go type `int` on the 64-bit platforms chaincode runs on. -/
def inInt64 (v : Int) : Prop := -9223372036854775808 ≤ v ∧ v ≤ 9223372036854775807

instance (v : Int) : Decidable (inInt64 v) := by unfold inInt64; infer_instance

/-! ## The asset record -/

/-- The struct `Asset` (`smartcontract.go`, lines 17-30). -/
structure Asset where
  ID : Bytes
  Issuerid : Bytes
  IssuerName : Bytes
  Owner : Bytes
  Value : Int
  State : Bytes
  Category : Bytes
  AssetName : Bytes
  Account : Bytes
  Amount : Bytes
  Destination : Bytes
  Hash : Bytes
  deriving DecidableEq, Repr

/-- The zero value of `Asset`, as allocated by `json.Unmarshal` before it fills in fields. -/
def Asset.zero : Asset :=
  { ID := [], Issuerid := [], IssuerName := [], Owner := [], Value := 0, State := [],
    Category := [], AssetName := [], Account := [], Amount := [], Destination := [], Hash := [] }

/-! ## `encoding/json`: encoding -/

/-- The table `hex` of `encoding/json`. -/
def hexDigit (n : Nat) : Nat := if n < 10 then 48 + n else 87 + n

/-- The table `htmlSafeSet`: the ASCII bytes that `json.Marshal` copies unescaped. -/
def htmlSafe (b : Nat) : Bool :=
  decide (0x20 ≤ b) && decide (b < 0x80) &&
    !(b == 0x22 || b == 0x26 || b == 0x3C || b == 0x3E || b == 0x5C)

/-- Escape of one ASCII byte outside `htmlSafeSet` (the `switch` of `appendString`).  Go
releases from 1.22 on write `\b` and `\f` for the bytes 8 and 12 where older ones write
`\u0008` and `\u000c`, as here; both forms decode to the same byte. -/
def escapeByte (b : Nat) : Bytes :=
  if b = 0x5C ∨ b = 0x22 then [0x5C, b]
  else if b = 0x0A then [0x5C, 0x6E]
  else if b = 0x0D then [0x5C, 0x72]
  else if b = 0x09 then [0x5C, 0x74]
  else [0x5C, 0x75, 0x30, 0x30, hexDigit (b / 16), hexDigit (b % 16)]

/-- Worker of `appendString`: the escaped form of the bytes of a string; `skip` bytes of the
rune last decoded remain to be passed over. -/
def appendString.go : Nat → Bytes → Bytes
  | _, [] => []
  | skip + 1, _ :: t => appendString.go skip t
  | 0, b :: t =>
    if b < 0x80 then
      (if htmlSafe b then [b] else escapeByte b) ++ appendString.go 0 t
    else
      let (c, size) := decodeRune (b :: t)
      if c = runeError ∧ size = 1 then
        ascii "\\ufffd" ++ appendString.go 0 t
      else if c = 0x2028 ∨ c = 0x2029 then
        ascii "\\u202" ++ [hexDigit (c % 16)] ++ appendString.go (size - 1) t
      else
        (b :: t).take size ++ appendString.go (size - 1) t

/-- The function `appendString` of `encoding/json` with `escapeHTML = true`, as `json.Marshal`
calls it: a quoted JSON string.  Invalid UTF-8 is replaced by the escape of U+FFFD. -/
def appendString (s : Bytes) : Bytes := 0x22 :: appendString.go 0 s ++ [0x22]

/-- The function `json.Marshal` at type `Asset` (and `*Asset`, non-nil): the object with the
twelve fields in declaration order under their `json:"..."` tag names.  It returns no error
for this type. -/
def marshalAsset (a : Asset) : Bytes :=
  ascii "\x7b\"ID\":" ++ appendString a.ID ++
  ascii ",\"issuerid\":" ++ appendString a.Issuerid ++
  ascii ",\"issuerName\":" ++ appendString a.IssuerName ++
  ascii ",\"owner\":" ++ appendString a.Owner ++
  ascii ",\"value\":" ++ formatInt a.Value ++
  ascii ",\"state\":" ++ appendString a.State ++
  ascii ",\"category\":" ++ appendString a.Category ++
  ascii ",\"assetName\":" ++ appendString a.AssetName ++
  ascii ",\"account\":" ++ appendString a.Account ++
  ascii ",\"amount\":" ++ appendString a.Amount ++
  ascii ",\"destination\":" ++ appendString a.Destination ++
  ascii ",\"hash\":" ++ appendString a.Hash ++ ascii "\x7d"

/-! ## `encoding/json`: decoding -/

/-- The two kinds of error `json.Unmarshal` returns here: a `*json.SyntaxError` (the input is
not one JSON value) and a `*json.UnmarshalTypeError` (a JSON value does not fit the Go type
it is stored into). -/
inductive JsonError where
  | malformed
  | typeMismatch
  deriving DecidableEq, Repr

/-- The function `isSpace` of the JSON scanner. -/
def isSpace (b : Nat) : Bool := b == 0x20 || b == 0x09 || b == 0x0D || b == 0x0A

/-- Input with leading JSON white space removed. -/
def skipSpace : Bytes → Bytes
  | [] => []
  | b :: t => if isSpace b then skipSpace t else b :: t

/-- An ASCII decimal digit. -/
def isDigit (b : Nat) : Bool := decide (48 ≤ b) && decide (b ≤ 57)

/-- Value of a hexadecimal digit (`getu4`); `none` for any other byte. -/
def hexVal (b : Nat) : Option Nat :=
  if 48 ≤ b ∧ b ≤ 57 then some (b - 48)
  else if 97 ≤ b ∧ b ≤ 102 then some (b - 87)
  else if 65 ≤ b ∧ b ≤ 70 then some (b - 55)
  else none

/-- The function `getu4`: the code unit of a leading `\uXXXX` escape, or `none`. -/
def getu4 : Bytes → Option Nat
  | 0x5C :: 0x75 :: h1 :: h2 :: h3 :: h4 :: _ =>
    match hexVal h1, hexVal h2, hexVal h3, hexVal h4 with
    | some a, some b, some c, some d => some (a * 4096 + b * 256 + c * 16 + d)
    | _, _, _, _ => none
  | _ => none

/-- The function `utf16.IsSurrogate`. -/
def isSurrogate (r : Nat) : Bool := decide (0xD800 ≤ r) && decide (r < 0xE000)

/-- The function `utf16.DecodeRune` on a first unit and an optional second unit: the rune of a
valid surrogate pair, U+FFFD otherwise. -/
def utf16DecodeRune (r1 : Nat) (r2 : Option Nat) : Nat :=
  match r2 with
  | some r2 =>
    if 0xD800 ≤ r1 ∧ r1 < 0xDC00 ∧ 0xDC00 ≤ r2 ∧ r2 < 0xE000 then
      (r1 - 0xD800) * 1024 + (r2 - 0xDC00) + 0x10000
    else runeError
  | none => runeError

/-- One escape sequence of a string literal (scanner state `stateInStringEsc` and the
backslash case of `unquoteBytes`); the input starts after the backslash.  The result is the
bytes the escape stands for and the number of input bytes it occupies.  A `\uXXXX` escape
of a surrogate is combined with a following low surrogate escape, and stands for U+FFFD when
there is none. -/
def unescape (t : Bytes) : Option (Bytes × Nat) :=
  match t with
  | [] => none
  | c :: t1 =>
    if c = 0x75 then
      match getu4 (0x5C :: c :: t1) with
      | none => none
      | some rr =>
        if isSurrogate rr then
          let dec := utf16DecodeRune rr (getu4 (t1.drop 4))
          if dec ≠ runeError then some (encodeRune dec, 11)
          else some (encodeRune runeError, 5)
        else some (encodeRune rr, 5)
    else if c = 0x22 ∨ c = 0x5C ∨ c = 0x2F then some ([c], 1)
    else if c = 0x62 then some ([0x08], 1)
    else if c = 0x66 then some ([0x0C], 1)
    else if c = 0x6E then some ([0x0A], 1)
    else if c = 0x72 then some ([0x0D], 1)
    else if c = 0x74 then some ([0x09], 1)
    else none

/-- Scanner state `stateInString` together with `unquoteBytes`: reads a string literal whose
opening quote has been consumed and returns its value and the input after the closing quote.
`skip` bytes of the escape or rune last decoded remain to be passed over.  Invalid UTF-8
inside the literal is replaced by U+FFFD. -/
def unquote.go : Nat → Bytes → Option (Bytes × Bytes)
  | _, [] => none
  | skip + 1, _ :: t => unquote.go skip t
  | 0, b :: t =>
    if b = 0x22 then some ([], t)
    else if b = 0x5C then
      match unescape t with
      | none => none
      | some (out, n) => (unquote.go n t).map fun p => (out ++ p.1, p.2)
    else if b < 0x20 then none
    else if b < 0x80 then (unquote.go 0 t).map fun p => (b :: p.1, p.2)
    else
      let (rr, size) := decodeRune (b :: t)
      (unquote.go (size - 1) t).map fun p => (encodeRune rr ++ p.1, p.2)

/-- Reads a string literal after its opening quote: `(value, rest)`. -/
def unquote (s : Bytes) : Option (Bytes × Bytes) := unquote.go 0 s

/-- The longest run of leading digits and the input after it. -/
def takeDigits : Bytes → Bytes × Bytes
  | [] => ([], [])
  | b :: t => if isDigit b then ((takeDigits t).1.cons b, (takeDigits t).2) else ([], b :: t)

/-- Optional fraction part of a number (scanner states `stateDot`, `stateDot0`). -/
def scanFrac (s : Bytes) : Option (Bytes × Bytes) :=
  match s with
  | 0x2E :: t =>
    match takeDigits t with
    | ([], _) => none
    | (ds, r) => some (0x2E :: ds, r)
  | _ => some ([], s)

/-- Optional exponent part of a number (scanner states `stateE`, `stateESign`, `stateE0`). -/
def scanExp (s : Bytes) : Option (Bytes × Bytes) :=
  match s with
  | [] => some ([], [])
  | e :: t =>
    if e = 0x65 ∨ e = 0x45 then
      match t with
      | [] => none
      | sg :: t1 =>
        if sg = 0x2B ∨ sg = 0x2D then
          match takeDigits t1 with
          | ([], _) => none
          | (ds, r) => some (e :: sg :: ds, r)
        else
          match takeDigits t with
          | ([], _) => none
          | (ds, r) => some (e :: ds, r)
    else some ([], s)

/-- Integer part of a number (scanner states `state0`, `state1`): a single `0`, or a non-zero
digit followed by digits. -/
def scanIntPart (s : Bytes) : Option (Bytes × Bytes) :=
  match s with
  | [] => none
  | d :: t =>
    if d = 48 then some ([48], t)
    else if isDigit d then some (d :: (takeDigits t).1, (takeDigits t).2)
    else none

/-- A JSON number literal without its sign: integer part, optional fraction, optional
exponent. -/
def scanUnsigned (s : Bytes) : Option (Bytes × Bytes) :=
  match scanIntPart s with
  | none => none
  | some (ip, s2) =>
    match scanFrac s2 with
    | none => none
    | some (fr, s3) =>
      match scanExp s3 with
      | none => none
      | some (ex, s4) => some (ip ++ fr ++ ex, s4)

/-- Reads a JSON number literal (scanner state `stateNeg` and the states after it):
`(literal, rest)`. -/
def scanNumber (s : Bytes) : Option (Bytes × Bytes) :=
  match s with
  | [] => none
  | b :: t =>
    if b = 0x2D then (scanUnsigned t).map fun p => (0x2D :: p.1, p.2)
    else scanUnsigned s

/-- Value of a non-empty string of decimal digits, given the value read so far. -/
def parseDigits : Nat → Bytes → Option Nat
  | acc, [] => some acc
  | acc, b :: t => if isDigit b then parseDigits (acc * 10 + (b - 48)) t else none

/-- The function `strconv.ParseInt(s, 10, 64)`: an optional sign and decimal digits, with the
value in the range of `int64`; `none` stands for its error. -/
def parseInt (s : Bytes) : Option Int :=
  match s with
  | [] => none
  | 0x2D :: t =>
    if t = [] then none
    else (parseDigits 0 t).bind fun n =>
      if n ≤ 9223372036854775808 then some (-(n : Int)) else none
  | 0x2B :: t =>
    if t = [] then none
    else (parseDigits 0 t).bind fun n =>
      if n ≤ 9223372036854775807 then some (n : Int) else none
  | b :: t =>
    (parseDigits 0 (b :: t)).bind fun n =>
      if n ≤ 9223372036854775807 then some (n : Int) else none

/-- Removes the literal `p` from the front of `s`, if it is there. -/
def dropLit : Bytes → Bytes → Option Bytes
  | [], s => some s
  | _ :: _, [] => none
  | p :: ps, b :: t => if p = b then dropLit ps t else none

/-- What the decoder sees of one JSON value. -/
inductive Tok where
  | null
  | bool
  | num (lit : Bytes)
  | str (val : Bytes)
  | composite
  deriving DecidableEq, Repr

/-- Reads a JSON value that is not an array or object; the input starts at its first byte. -/
def scanScalar (s : Bytes) : Option (Tok × Bytes) :=
  match s with
  | [] => none
  | b :: t =>
    if b = 0x22 then (unquote t).map fun p => (Tok.str p.1, p.2)
    else if b = 0x6E then (dropLit (ascii "ull") t).map fun r => (Tok.null, r)
    else if b = 0x74 then (dropLit (ascii "rue") t).map fun r => (Tok.bool, r)
    else if b = 0x66 then (dropLit (ascii "alse") t).map fun r => (Tok.bool, r)
    else if b = 0x2D ∨ isDigit b then (scanNumber s).map fun p => (Tok.num p.1, p.2)
    else none

mutual

/-- Passes over one JSON value, nested arrays and objects included; the input starts at its
first byte and the result is the input after it.  `none` is a syntax error (or exhausted
fuel). -/
def skipValue : Nat → Bytes → Option Bytes
  | 0, _ => none
  | fuel + 1, s =>
    match s with
    | [] => none
    | b :: t =>
      if b = 0x5B then
        match skipSpace t with
        | 0x5D :: r => some r
        | s1 => skipElems fuel s1
      else if b = 0x7B then
        match skipSpace t with
        | 0x7D :: r => some r
        | s1 => skipMembers fuel s1
      else (scanScalar s).map Prod.snd

/-- Passes over the elements of an array up to and including the closing bracket; the input
starts at the first byte of an element. -/
def skipElems : Nat → Bytes → Option Bytes
  | 0, _ => none
  | fuel + 1, s =>
    match skipValue fuel s with
    | none => none
    | some r =>
      match skipSpace r with
      | 0x2C :: r1 => skipElems fuel (skipSpace r1)
      | 0x5D :: r1 => some r1
      | _ => none

/-- Passes over the members of an object up to and including the closing brace; the input
starts at the opening quote of a key. -/
def skipMembers : Nat → Bytes → Option Bytes
  | 0, _ => none
  | fuel + 1, s =>
    match s with
    | 0x22 :: t =>
      match unquote t with
      | none => none
      | some (_, r) =>
        match skipSpace r with
        | 0x3A :: r1 =>
          match skipValue fuel (skipSpace r1) with
          | none => none
          | some r2 =>
            match skipSpace r2 with
            | 0x2C :: r3 => skipMembers fuel (skipSpace r3)
            | 0x7D :: r3 => some r3
            | _ => none
        | _ => none
    | _ => none

end

/-- Reads one JSON value of any kind; the input starts at its first byte. -/
def scanValue (fuel : Nat) (s : Bytes) : Option (Tok × Bytes) :=
  match s with
  | [] => none
  | b :: _ =>
    if b = 0x5B ∨ b = 0x7B then (skipValue fuel s).map fun r => (Tok.composite, r)
    else scanScalar s

/-- The fields of `Asset`, in declaration order. -/
inductive Field where
  | ID | Issuerid | IssuerName | Owner | Value | State
  | Category | AssetName | Account | Amount | Destination | Hash
  deriving DecidableEq, Repr

/-- The JSON name of a field: its `json:"..."` struct tag (`smartcontract.go`, lines 18-29). -/
def Field.name : Field → Bytes
  | .ID => ascii "ID"
  | .Issuerid => ascii "issuerid"
  | .IssuerName => ascii "issuerName"
  | .Owner => ascii "owner"
  | .Value => ascii "value"
  | .State => ascii "state"
  | .Category => ascii "category"
  | .AssetName => ascii "assetName"
  | .Account => ascii "account"
  | .Amount => ascii "amount"
  | .Destination => ascii "destination"
  | .Hash => ascii "hash"

/-- All fields, in declaration order. -/
def Field.all : List Field :=
  [.ID, .Issuerid, .IssuerName, .Owner, .Value, .State,
   .Category, .AssetName, .Account, .Amount, .Destination, .Hash]

/-- The function `foldRune` on a non-ASCII rune, as far as it decides a match with the ASCII
field names: U+017F and U+212A fold to `S` and `K`; every other non-ASCII rune folds to a
non-ASCII rune and is left as it is. -/
def foldRune (r : Nat) : Nat :=
  if r = 0x17F then 0x53 else if r = 0x212A then 0x4B else r

/-- Worker of `foldName`; `skip` bytes of the rune last decoded remain to be passed over. -/
def foldName.go : Nat → Bytes → Bytes
  | _, [] => []
  | skip + 1, _ :: t => foldName.go skip t
  | 0, b :: t =>
    if b < 0x80 then (if 97 ≤ b ∧ b ≤ 122 then b - 32 else b) :: foldName.go 0 t
    else
      let (r, n) := decodeRune (b :: t)
      encodeRune (foldRune r) ++ foldName.go (n - 1) t

/-- The function `foldName` of `encoding/json`: the case-folded form of an object key under
which a struct field is looked up when no field name matches exactly. -/
def foldName (s : Bytes) : Bytes := foldName.go 0 s

/-- Field selection of the object decoder: the field whose name equals the key, otherwise the
field whose folded name equals the folded key. -/
def findField (key : Bytes) : Option Field :=
  match Field.all.find? (fun f => f.name = key) with
  | some f => some f
  | none => Field.all.find? (fun f => foldName f.name = foldName key)

/-- Assignment of a string to a string field; the integer field `Value` is not a target. -/
def Asset.setString (a : Asset) (f : Field) (v : Bytes) : Asset :=
  match f with
  | .ID => { a with ID := v }
  | .Issuerid => { a with Issuerid := v }
  | .IssuerName => { a with IssuerName := v }
  | .Owner => { a with Owner := v }
  | .Value => a
  | .State => { a with State := v }
  | .Category => { a with Category := v }
  | .AssetName => { a with AssetName := v }
  | .Account => { a with Account := v }
  | .Amount => { a with Amount := v }
  | .Destination => { a with Destination := v }
  | .Hash => { a with Hash := v }

/-- The function `literalStore` (and the `array`/`object` cases) at a field of `Asset`: stores
a JSON value into the field; `none` is an `UnmarshalTypeError`.  A `null` leaves the field
as it is. -/
def storeField (f : Field) (tok : Tok) (a : Asset) : Option Asset :=
  match tok with
  | .null => some a
  | .str v => if f = .Value then none else some (a.setString f v)
  | .num lit =>
    if f = .Value then (parseInt lit).map fun v => { a with Value := v } else none
  | .bool => none
  | .composite => none

/-- The member loop of the object decoder at type `Asset`: reads `"key": value` pairs up to
and including the closing brace; the input starts at the opening quote of a key.  Unknown
keys are passed over, a later duplicate key overwrites, and a type error is recorded in the
flag while decoding goes on.  `none` is a syntax error. -/
def decodeMembers : Nat → Bytes → Asset → Bool → Option (Asset × Bool × Bytes)
  | 0, _, _, _ => none
  | fuel + 1, s, a, bad =>
    match s with
    | 0x22 :: t =>
      match unquote t with
      | none => none
      | some (key, r) =>
        match skipSpace r with
        | 0x3A :: r1 =>
          match scanValue fuel (skipSpace r1) with
          | none => none
          | some (tok, r2) =>
            let st : Asset × Bool :=
              match findField key with
              | none => (a, bad)
              | some f =>
                match storeField f tok a with
                | some a1 => (a1, bad)
                | none => (a, true)
            match skipSpace r2 with
            | 0x2C :: r3 => decodeMembers fuel (skipSpace r3) st.1 st.2
            | 0x7D :: r3 => some (st.1, st.2, r3)
            | _ => none
        | _ => none
    | _ => none

/-- The call `json.Unmarshal(data, &asset)` with `var asset *Asset`: the pointer that `asset`
holds afterwards, or the error.  A JSON object allocates an `Asset` and fills it in; the
literal `null` sets the pointer to nil and is no error; any other JSON value is a type
error; input that is not exactly one JSON value is a syntax error.  The fuel is twice the
length of the input: every recursive call of the readers is made on a value, element or
member that takes up at least one byte and is followed by at least one more.  The limit of
10000 on the nesting depth that newer Go releases apply is not modelled. -/
def unmarshalAsset (data : Bytes) : Except JsonError (Option Asset) :=
  let fuel := 2 * data.length + 2
  match skipSpace data with
  | 0x7B :: t =>
    let r : Option (Asset × Bool × Bytes) :=
      match skipSpace t with
      | 0x7D :: r => some (Asset.zero, false, r)
      | s1 => decodeMembers fuel s1 Asset.zero false
    match r with
    | none => .error .malformed
    | some (a, bad, rest) =>
      if skipSpace rest ≠ [] then .error .malformed
      else if bad then .error .typeMismatch
      else .ok (some a)
  | s =>
    match scanValue fuel s with
    | none => .error .malformed
    | some (tok, rest) =>
      if skipSpace rest ≠ [] then .error .malformed
      else if tok = .null then .ok none
      else .error .typeMismatch

/-! ## `strings.ToLower` -/

/-- The function `unicode.ToLower`: ASCII letters by arithmetic, any other rune through the
case tables of package `unicode`, which are the parameter `tbl`. -/
def unicodeToLower (tbl : Nat → Nat) (r : Nat) : Nat :=
  if r ≤ 0x7F then (if 65 ≤ r ∧ r ≤ 90 then r + 32 else r) else tbl r

/-- The function `strings.Map(mapping, s)` for a mapping that drops no rune: every rune of `s`
(an invalid byte counts as U+FFFD) is replaced by the encoding of its image. -/
def stringsMap.go (mapping : Nat → Nat) : Nat → Bytes → Bytes
  | _, [] => []
  | skip + 1, _ :: t => stringsMap.go mapping skip t
  | 0, b :: t =>
    let (c, width) := decodeRune (b :: t)
    encodeRune (mapping c) ++ stringsMap.go mapping (width - 1) t

/-- The function `strings.ToLower`: ASCII-only strings are lowered byte by byte, others rune
by rune through `unicode.ToLower`. -/
def ToLower (tbl : Nat → Nat) (s : Bytes) : Bytes :=
  if s.all (fun c => decide (c < 0x80)) then
    s.map fun c => if 65 ≤ c ∧ c ≤ 90 then c + 32 else c
  else stringsMap.go (unicodeToLower tbl) 0 s

/-! ## The ledger stub -/

deriving instance DecidableEq for Except

/-- Byte-wise lexicographic order of keys, the order of the ledger's range scan. -/
def keyLt : Bytes → Bytes → Bool
  | _, [] => false
  | [], _ :: _ => true
  | a :: as, b :: bs => if a < b then true else if a = b then keyLt as bs else false

/-- Modelled from the spec: the external key-value ledger behind `ctx.GetStub()` (section 6,
"Collaborator contract"), which is not part of this repository.  `world` is the world state,
one entry per key in ascending key order.  The other fields say how the ledger answers:
`getErr key` is the error of a get on `key`, `putErr key value` the error of a put,
`rangeErr` the error of opening a range scan and `nextErr n` the error of the `n`-th call of
`Next` on a cursor (`none`: the call succeeds).  `openIterators` counts the cursors that have
been opened and not yet closed. -/
structure Stub where
  world : List (Bytes × Bytes)
  getErr : Bytes → Option String
  putErr : Bytes → Bytes → Option String
  rangeErr : Option String
  nextErr : Nat → Option String
  openIterators : Nat

/-- The value stored under a key in a list of entries. -/
def lookupKV (key : Bytes) : List (Bytes × Bytes) → Option Bytes
  | [] => none
  | (k, v) :: rest => if k = key then some v else lookupKV key rest

/-- The entries after a put: the value under `key` is replaced, or a new entry is inserted at
its place in key order. -/
def insertKV (key value : Bytes) : List (Bytes × Bytes) → List (Bytes × Bytes)
  | [] => [(key, value)]
  | (k, v) :: rest =>
    if key = k then (key, value) :: rest
    else if keyLt key k then (key, value) :: (k, v) :: rest
    else (k, v) :: insertKV key value rest

/-- Representation invariant of the world state: keys strictly ascending (so no key twice). -/
def Stub.WF (ctx : Stub) : Prop := ctx.world.Pairwise fun a b => keyLt a.1 b.1 = true

instance (ctx : Stub) : Decidable ctx.WF := by unfold Stub.WF; infer_instance

/-- Modelled from the spec: `LedgerGet(key) → bytes|absent, error` (`GetState` of the stub);
`ok none` is the nil slice returned for an absent key. -/
def Stub.GetState (ctx : Stub) (key : Bytes) : Except String (Option Bytes) :=
  match ctx.getErr key with
  | some e => .error e
  | none => .ok (lookupKV key ctx.world)

/-- Modelled from the spec: `LedgerPut(key, value) → error` (`PutState` of the stub); a put
that fails writes nothing. -/
def Stub.PutState (ctx : Stub) (key value : Bytes) : Except String Unit × Stub :=
  match ctx.putErr key value with
  | some e => (.error e, ctx)
  | none => (.ok (), { ctx with world := insertKV key value ctx.world })

/-- Modelled from the spec: the cursor of `LedgerScanAll()`: the entries not yet delivered and
the number of `Next` calls made so far.  `HasNext()` holds while `items` is not empty; the
call `Next()` number `pos` fails with `nextErr pos` or delivers the head of `items`. -/
structure Iterator where
  items : List (Bytes × Bytes)
  pos : Nat

/-- Modelled from the spec: `LedgerScanAll() → cursor` (`GetStateByRange("", "")` of the stub):
a cursor over all entries in ascending key order. -/
def Stub.GetStateByRange (ctx : Stub) : Except String Iterator × Stub :=
  match ctx.rangeErr with
  | some e => (.error e, ctx)
  | none => (.ok { items := ctx.world, pos := 0 },
             { ctx with openIterators := ctx.openIterators + 1 })

/-- Modelled from the spec: `Close()` of the cursor. -/
def Stub.Close (ctx : Stub) : Stub := { ctx with openIterators := ctx.openIterators - 1 }

/-! ## The contract (`smartcontract.go`) -/

/-- The errors the contract methods return, and the run-time panic of a nil dereference. -/
inductive Error where
  /-- The error `fmt.Errorf("the asset %s already exists", id)` (line 64). -/
  | alreadyExists (id : Bytes)
  /-- The error `fmt.Errorf("the asset %s does not exist", id)` (line 97). -/
  | doesNotExist (id : Bytes)
  /-- The error `fmt.Errorf("failed to read from world state: %v", err)` (lines 94, 113). -/
  | readFailed (cause : String)
  /-- An error of `PutState`, `GetStateByRange` or `Next`, returned as it is. -/
  | ledger (cause : String)
  /-- An error of `json.Unmarshal`, returned as it is. -/
  | json (e : JsonError)
  /-- The panic "invalid memory address or nil pointer dereference": the invocation is
  aborted; nothing is returned. -/
  | nilDereference
  deriving DecidableEq, Repr

/-- The call `json.Marshal(asset)`; at type `Asset` it has no failing case. -/
def Marshal (a : Asset) : Except Error Bytes := .ok (marshalAsset a)

/-- The method `AssetExists` (lines 110-117); `assetJSON.isSome` is `assetJSON != nil`. -/
def AssetExists (ctx : Stub) (id : Bytes) : Except Error Bool :=
  match ctx.GetState id with
  | .error e => .error (.readFailed e)
  | .ok assetJSON => .ok assetJSON.isSome

/-- The method `ReadAsset` (lines 91-107).  The result is a pointer `*Asset`: `some a` points
to a record, `none` is the nil pointer. -/
def ReadAsset (ctx : Stub) (id : Bytes) : Except Error (Option Asset) :=
  match ctx.GetState id with
  | .error e => .error (.readFailed e)
  | .ok none => .error (.doesNotExist id)
  | .ok (some assetJSON) =>
    match unmarshalAsset assetJSON with
    | .error e => .error (.json e)
    | .ok asset => .ok asset

/-- The method `CreateAsset` (lines 58-88): the returned error and the ledger afterwards. -/
def CreateAsset (ctx : Stub) (id issueID issueName owner : Bytes) (appraisedValue : Int)
    (cat assetName : Bytes) : Except Error Unit × Stub :=
  match AssetExists ctx id with
  | .error e => (.error e, ctx)
  | .ok true => (.error (.alreadyExists id), ctx)
  | .ok false =>
    let asset : Asset :=
      { ID := id, Issuerid := issueID, IssuerName := issueName, Owner := owner,
        Value := appraisedValue, State := ascii "Issued", Category := cat,
        AssetName := assetName, Account := [], Amount := [], Destination := [], Hash := [] }
    match Marshal asset with
    | .error e => (.error e, ctx)
    | .ok assetJSON =>
      match ctx.PutState id assetJSON with
      | (.error e, ctx1) => (.error (.ledger e), ctx1)
      | (.ok _, ctx1) => (.ok (), ctx1)

/-- The method `TransferAsset` (lines 120-138): the returned error and the ledger afterwards.
The assignments of lines 126-130 go through the pointer that `ReadAsset` returned; on a nil
pointer the first of them panics. -/
def TransferAsset (ctx : Stub) (id newOwner amount account destination hash : Bytes) :
    Except Error Unit × Stub :=
  match ReadAsset ctx id with
  | .error e => (.error e, ctx)
  | .ok none => (.error .nilDereference, ctx)
  | .ok (some asset0) =>
    let asset : Asset :=
      { asset0 with Owner := newOwner, Amount := amount, Account := account,
                    Destination := destination, Hash := hash }
    match Marshal asset with
    | .error e => (.error e, ctx)
    | .ok assetJSON =>
      match ctx.PutState id assetJSON with
      | (.error e, ctx1) => (.error (.ledger e), ctx1)
      | (.ok _, ctx1) => (.ok (), ctx1)

/-- The loop of `GetAssetByCat` (lines 150-165) over the entries the cursor has still to
deliver, `pos` calls of `Next` having been made; `assets` is the slice built so far.
Reading `asset.Category` through a nil pointer panics. -/
def GetAssetByCat.loop (tbl : Nat → Nat) (ctx : Stub) (cat : Bytes) :
    Nat → List (Bytes × Bytes) → List (Option Asset) → Except Error (List (Option Asset))
  | _, [], assets => .ok assets
  | pos, queryResponse :: rest, assets =>
    match ctx.nextErr pos with
    | some e => .error (.ledger e)
    | none =>
      match unmarshalAsset queryResponse.2 with
      | .error e => .error (.json e)
      | .ok none => .error .nilDereference
      | .ok (some asset) =>
        if ToLower tbl asset.Category = ToLower tbl cat then
          GetAssetByCat.loop tbl ctx cat (pos + 1) rest (assets ++ [some asset])
        else GetAssetByCat.loop tbl ctx cat (pos + 1) rest assets

/-- The method `GetAssetByCat` (lines 141-168): the result and the ledger afterwards.  The
deferred `Close` runs on every path after the cursor was obtained.  `tbl` stands for the case
tables of package `unicode` behind `strings.ToLower`. -/
def GetAssetByCat (tbl : Nat → Nat) (ctx : Stub) (cat : Bytes) :
    Except Error (List (Option Asset)) × Stub :=
  match ctx.GetStateByRange with
  | (.error e, ctx1) => (.error (.ledger e), ctx1)
  | (.ok resultsIterator, ctx1) =>
    (GetAssetByCat.loop tbl ctx1 cat resultsIterator.pos resultsIterator.items [], ctx1.Close)

/-- The loop of `GetAllAssets` (lines 180-193) over the entries the cursor has still to
deliver, `pos` calls of `Next` having been made; `assets` is the slice built so far. -/
def GetAllAssets.loop (ctx : Stub) :
    Nat → List (Bytes × Bytes) → List (Option Asset) → Except Error (List (Option Asset))
  | _, [], assets => .ok assets
  | pos, queryResponse :: rest, assets =>
    match ctx.nextErr pos with
    | some e => .error (.ledger e)
    | none =>
      match unmarshalAsset queryResponse.2 with
      | .error e => .error (.json e)
      | .ok asset => GetAllAssets.loop ctx (pos + 1) rest (assets ++ [asset])

/-- The method `GetAllAssets` (lines 171-196): the result and the ledger afterwards.  The
deferred `Close` runs on every path after the cursor was obtained. -/
def GetAllAssets (ctx : Stub) : Except Error (List (Option Asset)) × Stub :=
  match ctx.GetStateByRange with
  | (.error e, ctx1) => (.error (.ledger e), ctx1)
  | (.ok resultsIterator, ctx1) =>
    (GetAllAssets.loop ctx1 resultsIterator.pos resultsIterator.items [], ctx1.Close)

/-- A ledger with the given world state on which no operation fails and no cursor is open. -/
def Stub.healthy (world : List (Bytes × Bytes)) : Stub :=
  { world := world, getErr := fun _ => none, putErr := fun _ _ => none, rangeErr := none,
    nextErr := fun _ => none, openIterators := 0 }

/-! ## Notions used in the statements -/

/-- One member `"name":value` of a marshalled object. -/
def member (f : Field) (val : Bytes) : Bytes := 0x22 :: (f.name ++ 0x22 :: 0x3A :: val)

/-- The record is one that a Go caller can hand over and that survives `json.Marshal`
unchanged: every string is valid UTF-8 and `Value` is in the range of `int`. -/
def Asset.wellFormed (a : Asset) : Prop :=
  validUTF8 a.ID = true ∧ validUTF8 a.Issuerid = true ∧ validUTF8 a.IssuerName = true ∧
  validUTF8 a.Owner = true ∧ inInt64 a.Value ∧ validUTF8 a.State = true ∧
  validUTF8 a.Category = true ∧ validUTF8 a.AssetName = true ∧ validUTF8 a.Account = true ∧
  validUTF8 a.Amount = true ∧ validUTF8 a.Destination = true ∧ validUTF8 a.Hash = true

instance (a : Asset) : Decidable a.wellFormed := by unfold Asset.wellFormed; infer_instance

/-- The record that `CreateAsset` constructs from its arguments (lines 67-80). -/
def issued (id issueID issueName owner : Bytes) (appraisedValue : Int)
    (cat assetName : Bytes) : Asset :=
  { ID := id, Issuerid := issueID, IssuerName := issueName, Owner := owner,
    Value := appraisedValue, State := ascii "Issued", Category := cat,
    AssetName := assetName, Account := [], Amount := [], Destination := [], Hash := [] }

/-- The record that `TransferAsset` writes back for the record `a` it read (lines 126-130). -/
def transferred (a : Asset) (newOwner amount account destination hash : Bytes) : Asset :=
  { a with Owner := newOwner, Amount := amount, Account := account,
           Destination := destination, Hash := hash }

/-- The ledger answers "absent" to every get: the empty ledger. -/
def Stub.isEmpty (ctx : Stub) : Prop := ∀ key, ctx.GetState key = .ok none

/-- The range scan of the ledger delivers its entries: the cursor opens and no `Next` on it
fails. -/
def Stub.scanOK (ctx : Stub) : Prop :=
  ctx.rangeErr = none ∧ ∀ n, n < ctx.world.length → ctx.nextErr n = none

instance (ctx : Stub) : Decidable ctx.scanOK := by unfold Stub.scanOK; infer_instance

/-- The stored value decodes to an asset record: `json.Unmarshal` returns no error and leaves a
non-nil pointer. -/
def decodes (value : Bytes) : Bool :=
  match unmarshalAsset value with
  | .ok (some _) => true
  | _ => false

/-- The record a stored value decodes to (`Asset.zero` for a value that does not decode to a
record). -/
def decoded (value : Bytes) : Asset :=
  match unmarshalAsset value with
  | .ok (some a) => a
  | _ => Asset.zero

/-- Every entry of the ledger decodes to an asset record. -/
def Stub.allDecode (ctx : Stub) : Prop := ∀ kv ∈ ctx.world, decodes kv.2 = true

instance (ctx : Stub) : Decidable ctx.allDecode := by unfold Stub.allDecode; infer_instance

/-- An example record: what `CreateAsset` constructs for `asset1`. -/
def asset1 : Asset :=
  issued (ascii "asset1") (ascii "Axis7051") (ascii "Axis") (ascii "Axis") 500
    (ascii "Machines") (ascii "lathe")

/-- An example record of category `machines`. -/
def asset2 : Asset :=
  issued (ascii "asset2") (ascii "Hdfc8051") (ascii "Hdfc") (ascii "Hdfc") 3300
    (ascii "machines") (ascii "press")

/-- An example record of category `Furniture`. -/
def asset3 : Asset :=
  issued (ascii "asset3") (ascii "Bofs9051") (ascii "Bofs") (ascii "Bofs") 800
    (ascii "Furniture") (ascii "desk")

/-- An example ledger that holds `asset1` and refuses every put. -/
def refusingLedger : Stub :=
  { Stub.healthy [(ascii "asset1", marshalAsset asset1)] with
    putErr := fun _ _ => some "write refused" }

/-- An example ledger with assets of categories `Machines`, `machines` and `Furniture`. -/
def mixedLedger : Stub :=
  Stub.healthy [(ascii "asset1", marshalAsset asset1), (ascii "asset2", marshalAsset asset2),
    (ascii "asset3", marshalAsset asset3)]

/-- The ledgers reachable from an empty ledger by invocations of the contract none of which
is a successful `CreateAsset` for `id`.  `ReadAsset` and `AssetExists` leave the ledger as it
is and need no step of their own. -/
inductive NeverCreated (id : Bytes) : Stub → Prop where
  | empty (ctx : Stub) (h : ctx.isEmpty) : NeverCreated id ctx
  | create (ctx : Stub) (id1 issueID issueName owner : Bytes) (appraisedValue : Int)
      (cat assetName : Bytes) (h : NeverCreated id ctx)
      (hne : id1 = id →
        (CreateAsset ctx id1 issueID issueName owner appraisedValue cat assetName).1 ≠ .ok ()) :
      NeverCreated id
        (CreateAsset ctx id1 issueID issueName owner appraisedValue cat assetName).2
  | transfer (ctx : Stub) (id1 newOwner amount account destination hash : Bytes)
      (h : NeverCreated id ctx) :
      NeverCreated id (TransferAsset ctx id1 newOwner amount account destination hash).2
  | byCat (ctx : Stub) (tbl : Nat → Nat) (cat : Bytes) (h : NeverCreated id ctx) :
      NeverCreated id (GetAssetByCat tbl ctx cat).2
  | all (ctx : Stub) (h : NeverCreated id ctx) : NeverCreated id (GetAllAssets ctx).2

/-- Worker of `coerceUTF8`; `skip` bytes of the sequence last decoded remain to be copied. -/
def coerceUTF8.go : Nat → Bytes → Bytes
  | _, [] => []
  | skip + 1, b :: t => b :: coerceUTF8.go skip t
  | 0, b :: t =>
    if b < 0x80 then b :: coerceUTF8.go 0 t
    else if (decodeRune (b :: t)).2 = 1 then [0xEF, 0xBF, 0xBD] ++ coerceUTF8.go 0 t
    else b :: coerceUTF8.go ((decodeRune (b :: t)).2 - 1) t

/-- The string that `json.Marshal` followed by `json.Unmarshal` makes of `s`: well-formed
UTF-8 sequences are kept and every other byte is replaced by the three bytes of U+FFFD. -/
def coerceUTF8 (s : Bytes) : Bytes := coerceUTF8.go 0 s

/-- The record with every string coerced to valid UTF-8. -/
def Asset.coerced (a : Asset) : Asset :=
  { ID := coerceUTF8 a.ID, Issuerid := coerceUTF8 a.Issuerid,
    IssuerName := coerceUTF8 a.IssuerName, Owner := coerceUTF8 a.Owner, Value := a.Value,
    State := coerceUTF8 a.State, Category := coerceUTF8 a.Category,
    AssetName := coerceUTF8 a.AssetName, Account := coerceUTF8 a.Account,
    Amount := coerceUTF8 a.Amount, Destination := coerceUTF8 a.Destination,
    Hash := coerceUTF8 a.Hash }

/-- The JSON text of an object with the given members, each a name (written without escapes)
and the JSON text of its value, in the given order: `\x7b"n1":v1,"n2":v2,...\x7d`. -/
def objectOf : List (Bytes × Bytes) → Bytes
  | [] => [0x7B, 0x7D]
  | m :: ms =>
    0x7B :: (0x22 :: m.1 ++ 0x22 :: 0x3A :: m.2) ++
      (ms.map fun n => 0x2C :: 0x22 :: n.1 ++ 0x22 :: 0x3A :: n.2).flatten ++ [0x7D]

/-- The ledgers reachable from an empty ledger by invocations of `CreateAsset` whose id is
not empty and is valid UTF-8, and of `TransferAsset`; the arguments are otherwise arbitrary
Go values (the value a Go `int`). -/
inductive Reachable : Stub → Prop where
  | empty (ctx : Stub) (h : ctx.isEmpty) : Reachable ctx
  | create (ctx : Stub) (id issueID issueName owner : Bytes) (appraisedValue : Int)
      (cat assetName : Bytes) (h : Reachable ctx) (hid : id ≠ [])
      (hutf : validUTF8 id = true) (hvalue : inInt64 appraisedValue) :
      Reachable (CreateAsset ctx id issueID issueName owner appraisedValue cat assetName).2
  | transfer (ctx : Stub) (id newOwner amount account destination hash : Bytes)
      (h : Reachable ctx) :
      Reachable (TransferAsset ctx id newOwner amount account destination hash).2

/-- An example ledger that holds the JSON literal `null` under `asset1`. -/
def nullLedger : Stub := Stub.healthy [(ascii "asset1", ascii "null")]

/-- An example ledger that holds `asset1` and, under `asset2`, bytes that are not JSON. -/
def corruptLedger : Stub :=
  Stub.healthy [(ascii "asset1", marshalAsset asset1), (ascii "asset2", ascii "oops")]

/-- An example ledger like `mixedLedger` on which the second `Next` of a cursor fails. -/
def brokenScanLedger : Stub :=
  { mixedLedger with nextErr := fun n => if n = 1 then some "scan interrupted" else none }

/-- An example ledger that holds nothing and refuses to open a range scan. -/
def refusedScanLedger : Stub := { Stub.healthy [] with rangeErr := some "scan refused" }

/-- An example ledger that holds `asset1` and refuses to store one particular value, the
record of `asset1` transferred to `owner3`. -/
def pickyLedger : Stub :=
  { Stub.healthy [(ascii "asset1", marshalAsset asset1)] with
    putErr := fun _ value =>
      if value = marshalAsset (transferred asset1 (ascii "owner3") (ascii "70") (ascii "acctB")
          (ascii "dest2") (ascii "hash2")) then some "write refused"
      else none }

/-- An example ledger that holds `asset1` and on which every get fails. -/
def unreadableLedger : Stub :=
  { Stub.healthy [(ascii "asset1", marshalAsset asset1)] with
    getErr := fun _ => some "read refused" }

/-- An example ledger that holds `asset1` and, under `asset2`, the JSON literal `null`. -/
def halfNullLedger : Stub :=
  Stub.healthy [(ascii "asset1", marshalAsset asset1), (ascii "asset2", ascii "null")]

/-- The test of `GetAssetByCat` on an element of the result of `GetAllAssets`. -/
def matchesCat (tbl : Nat → Nat) (cat : Bytes) (asset : Option Asset) : Bool :=
  match asset with
  | some a => decide (ToLower tbl a.Category = ToLower tbl cat)
  | none => false

/-! ## Lemmas: UTF-8 and strings -/
theorem leadSize_two {b : Nat} (h : leadSize b = 2) : 0xC2 ≤ b ∧ b < 0xE0 := by
  unfold leadSize at h; split_ifs at h <;> omega

theorem leadSize_three {b : Nat} (h : leadSize b = 3) : 0xE0 ≤ b ∧ b < 0xF0 := by
  unfold leadSize at h; split_ifs at h <;> omega

theorem leadSize_four {b : Nat} (h : leadSize b = 4) : 0xF0 ≤ b ∧ b < 0xF5 := by
  unfold leadSize at h; split_ifs at h <;> omega

theorem accepts_bounds {s0 s1 : Nat} (h : accepts s0 s1 = true) :
    0x80 ≤ s1 ∧ s1 ≤ 0xBF ∧ (s0 = 0xE0 → 0xA0 ≤ s1) ∧ (s0 = 0xF0 → 0x90 ≤ s1) ∧
      (s0 = 0xED → s1 ≤ 0x9F) ∧ (s0 = 0xF4 → s1 ≤ 0x8F) := by
  simp only [accepts, acceptLo, acceptHi, Bool.and_eq_true, decide_eq_true_eq] at h
  obtain ⟨h1, h2⟩ := h
  split_ifs at h1 h2 <;> omega

theorem isCont_bounds {b : Nat} (h : isCont b = true) : 0x80 ≤ b ∧ b ≤ 0xBF := by
  simpa [isCont] using h

theorem decodeRune_multibyte (b : Nat) (t : Bytes) (hb : ¬ b < 0x80)
    (hsz : (decodeRune (b :: t)).2 ≠ 1) :
    ∃ pre t', t = pre ++ t' ∧ (decodeRune (b :: t)).2 = pre.length + 1 ∧
      encodeRune (decodeRune (b :: t)).1 = b :: pre ∧
      0x80 ≤ (decodeRune (b :: t)).1 ∧
      (∀ X, decodeRune (b :: (pre ++ X)) = decodeRune (b :: t)) := by
  unfold decodeRune at hsz ⊢
  simp only [hb, if_false] at hsz ⊢
  split at hsz
  · rename_i s1 rest hl
    by_cases hacc : accepts b s1 = true
    · simp only [hacc, if_true] at hsz ⊢
      have h1 := leadSize_two hl
      have h2 := accepts_bounds hacc
      refine ⟨[s1], rest, rfl, rfl, ?_, by omega, ?_⟩
      · unfold encodeRune
        rw [if_neg (by omega), if_pos (by omega)]
        congr 1
        · omega
        · congr 1; omega
      · intro X
        simp [hl, hacc]
    · simp [hacc] at hsz
  · rename_i s1 s2 rest hl
    by_cases hacc : (accepts b s1 && isCont s2) = true
    · simp only [hacc, if_true] at hsz ⊢
      have h1 := leadSize_three hl
      rw [Bool.and_eq_true] at hacc
      have h2 := accepts_bounds hacc.1
      have h3 := isCont_bounds hacc.2
      refine ⟨[s1, s2], rest, rfl, rfl, ?_, by omega, ?_⟩
      · unfold encodeRune
        rw [if_neg (by omega), if_neg (by omega), if_neg (by omega), if_pos (by omega)]
        congr 1
        · omega
        · congr 1
          · omega
          · congr 1; omega
      · intro X
        simp [hl, hacc]
    · simp [hacc] at hsz
  · rename_i s1 s2 s3 rest hl
    by_cases hacc : (accepts b s1 && isCont s2 && isCont s3) = true
    · simp only [hacc, if_true] at hsz ⊢
      have h1 := leadSize_four hl
      rw [Bool.and_eq_true, Bool.and_eq_true] at hacc
      have h2 := accepts_bounds hacc.1.1
      have h3 := isCont_bounds hacc.1.2
      have h4 := isCont_bounds hacc.2
      refine ⟨[s1, s2, s3], rest, rfl, rfl, ?_, by omega, ?_⟩
      · unfold encodeRune
        rw [if_neg (by omega), if_neg (by omega), if_neg (by omega), if_neg (by omega)]
        congr 1
        · omega
        · congr 1
          · omega
          · congr 1
            · omega
            · congr 1; omega
      · intro X
        simp [hl, hacc]
    · simp [hacc] at hsz
  · simp at hsz
theorem appendString_go_skip (pre s : Bytes) :
    appendString.go pre.length (pre ++ s) = appendString.go 0 s := by
  induction pre with
  | nil => rfl
  | cons a pre ih => simpa [appendString.go] using ih

theorem unquote_go_skip (pre s : Bytes) :
    unquote.go pre.length (pre ++ s) = unquote.go 0 s := by
  induction pre with
  | nil => rfl
  | cons a pre ih => simpa [unquote.go] using ih

theorem validUTF8_go_skip (pre s : Bytes) :
    validUTF8.go pre.length (pre ++ s) = validUTF8.go 0 s := by
  induction pre with
  | nil => rfl
  | cons a pre ih => simpa [validUTF8.go] using ih

theorem hexVal_hexDigit {n : Nat} (h : n < 16) : hexVal (hexDigit n) = some n := by
  unfold hexDigit hexVal
  split_ifs <;> first | omega | (congr 1; omega)

theorem unquote_go_ascii (b : Nat) (X : Bytes) (hb : b < 0x80) :
    unquote.go 0 ((if htmlSafe b then [b] else escapeByte b) ++ X) =
      (unquote.go 0 X).map fun p => (b :: p.1, p.2) := by
  by_cases hs : htmlSafe b = true
  · simp only [hs, if_true, List.singleton_append]
    simp only [htmlSafe, Bool.and_eq_true, decide_eq_true_eq, Bool.not_eq_true',
      Bool.or_eq_false_iff, beq_eq_false_iff_ne, ne_eq] at hs
    simp only [unquote.go]
    rw [if_neg (by omega), if_neg (by omega), if_neg (by omega), if_pos (by omega)]
  · simp only [hs, Bool.false_eq_true, if_false]
    simp only [htmlSafe, Bool.and_eq_true, decide_eq_true_eq, Bool.not_eq_true',
      Bool.or_eq_false_iff, beq_eq_false_iff_ne, ne_eq] at hs
    unfold escapeByte
    split_ifs with h1 h2 h3 h4
    · rcases h1 with h1 | h1 <;> subst h1 <;> simp [unquote.go, unescape]
    · subst h2; simp [unquote.go, unescape]
    · subst h3; simp [unquote.go, unescape]
    · subst h4; simp [unquote.go, unescape]
    · have hh1 : hexVal (hexDigit (b / 16)) = some (b / 16) := hexVal_hexDigit (by omega)
      have hh2 : hexVal (hexDigit (b % 16)) = some (b % 16) := hexVal_hexDigit (by omega)
      have e1 : encodeRune (b / 16 * 16 + b % 16) = [b] := by
        unfold encodeRune; rw [if_pos (by omega)]; congr 1; omega
      have e2 : isSurrogate (b / 16 * 16 + b % 16) = false := by
        simp only [isSurrogate, Bool.and_eq_false_iff, decide_eq_false_iff_not]; left; omega
      have h0 : hexVal 48 = some 0 := by decide
      simp [unquote.go, unescape, getu4, hh1, hh2, h0, e1, e2]

theorem appendString_go_multibyte (b : Nat) (pre t' : Bytes) (c : Nat) (hb : ¬ b < 0x80)
    (hdec : decodeRune (b :: (pre ++ t')) = (c, pre.length + 1)) (hpre : pre ≠ []) :
    appendString.go 0 (b :: (pre ++ t')) =
      (if c = 0x2028 ∨ c = 0x2029 then ascii "\\u202" ++ [hexDigit (c % 16)] else b :: pre) ++
        appendString.go 0 t' := by
  have hlen : pre.length ≠ 0 := by simpa [List.length_eq_zero] using hpre
  rw [appendString.go, if_neg hb, hdec]
  simp only [Nat.add_sub_cancel, appendString_go_skip]
  rw [if_neg (by omega)]
  split_ifs
  · rfl
  · simp [List.take_succ_cons]

theorem unquote_go_chunk (b : Nat) (pre X : Bytes) (c : Nat) (hb : ¬ b < 0x80)
    (hdec : decodeRune (b :: (pre ++ X)) = (c, pre.length + 1))
    (henc : encodeRune c = b :: pre) :
    unquote.go 0 ((if c = 0x2028 ∨ c = 0x2029 then ascii "\\u202" ++ [hexDigit (c % 16)]
        else b :: pre) ++ X) =
      (unquote.go 0 X).map fun p => (b :: pre ++ p.1, p.2) := by
  split_ifs with h
  · rcases h with h | h <;> subst h <;> rw [← henc] <;>
      simp [unquote.go, unescape, getu4, ascii, hexDigit, hexVal, isSurrogate]
  · rw [List.cons_append, unquote.go, if_neg (by omega), if_neg (by omega), if_neg (by omega),
      if_neg hb, hdec]
    simp only [Nat.add_sub_cancel, unquote_go_skip, henc]

theorem unquote_appendString_go (s : Bytes) :
    ∀ rest, validUTF8.go 0 s = true →
      unquote.go 0 (appendString.go 0 s ++ 0x22 :: rest) = some (s, rest) := by
  induction' hn : s.length using Nat.strong_induction_on with n ih generalizing s
  intro rest hv
  cases s with
  | nil => simp [appendString.go, unquote.go]
  | cons b t =>
    by_cases hb : b < 0x80
    · rw [validUTF8.go, if_pos hb] at hv
      rw [appendString.go, if_pos hb, List.append_assoc, unquote_go_ascii b _ hb,
        ih t.length (by simp [← hn]) t rfl rest hv]
      rfl
    · rw [validUTF8.go, if_neg hb] at hv
      simp only [beq_iff_eq, Bool.if_false_left, Bool.and_eq_true, Bool.not_eq_true',
        decide_eq_false_iff_not] at hv
      have hsz : (decodeRune (b :: t)).2 ≠ 1 := by
        intro h; simp [h] at hv
      obtain ⟨pre, t', ht, hlen, henc, _, hdec⟩ := decodeRune_multibyte b t hb hsz
      subst ht
      have hd : decodeRune (b :: (pre ++ t')) = ((decodeRune (b :: (pre ++ t'))).1, pre.length + 1) := by
        rw [← hlen]
      have hpre : pre ≠ [] := by
        intro h; subst h; simp at hlen; exact hsz hlen
      have hv' : validUTF8.go 0 t' = true := by
        have := hv
        simp only [hsz, hlen, Nat.add_sub_cancel, validUTF8_go_skip] at this
        exact this.2
      rw [appendString_go_multibyte b pre t' _ hb hd hpre, List.append_assoc,
        unquote_go_chunk b pre _ _ hb ((hdec _).trans hd) henc,
        ih t'.length (by simp [← hn]; omega) t' rfl rest hv']
      simp

/-! ### Numbers -/

theorem digitsAux_spec (fuel : Nat) : ∀ (n : Nat) (acc : Bytes), n < fuel →
    ∃ ds : Bytes, digitsAux fuel n acc = ds ++ acc ∧ ds ≠ [] ∧
      (∀ d ∈ ds, isDigit d = true) ∧ (ds.head? = some 48 → ds = [48] ∧ n = 0) ∧
      (∀ a r, parseDigits a (ds ++ r) = parseDigits (a * 10 ^ ds.length + n) r) := by
  induction fuel with
  | zero => intro n acc h; omega
  | succ fuel ih =>
    intro n acc h
    by_cases h10 : n < 10
    · refine ⟨[48 + n], by simp [digitsAux, h10], by simp, ?_, ?_, ?_⟩
      · intro d hd; simp at hd; subst hd; simp [isDigit]; omega
      · intro hh; simp at hh; subst hh; simp
      · intro a r
        have : isDigit (48 + n) = true := by simp [isDigit]; omega
        simp [parseDigits, this]
    · obtain ⟨ds, h1, h2, h3, h4, h5⟩ := ih (n / 10) ((48 + n % 10) :: acc) (by omega)
      refine ⟨ds ++ [48 + n % 10], by simp [digitsAux, h10, h1], by simp, ?_, ?_, ?_⟩
      · intro d hd
        rcases List.mem_append.1 hd with hd | hd
        · exact h3 d hd
        · simp at hd; subst hd; simp [isDigit]; omega
      · intro hh
        exfalso
        cases ds with
        | nil => exact h2 rfl
        | cons x xs =>
          simp at hh; subst hh
          have := (h4 rfl).2
          omega
      · intro a r
        have hd : isDigit (48 + n % 10) = true := by simp [isDigit]; omega
        rw [List.append_assoc, h5]
        simp only [List.singleton_append, parseDigits, hd, if_true, List.length_append,
          List.length_singleton, Nat.add_sub_cancel_left]
        congr 1
        rw [pow_succ]
        have := Nat.div_add_mod n 10
        nlinarith [this]

theorem formatNat_spec (n : Nat) :
    ∃ d ds, formatNat n = d :: ds ∧ isDigit d = true ∧ (∀ x ∈ ds, isDigit x = true) ∧
      (d = 48 → ds = []) ∧ parseDigits 0 (d :: ds) = some n := by
  obtain ⟨ds, h1, h2, h3, h4, h5⟩ := digitsAux_spec (n + 1) n [] (Nat.lt_succ_self n)
  cases ds with
  | nil => exact absurd rfl h2
  | cons d ds =>
    refine ⟨d, ds, by simpa [formatNat] using h1, h3 d (by simp),
      fun x hx => h3 x (by simp [hx]), ?_, ?_⟩
    · intro hd; subst hd
      have := (h4 rfl).1
      simpa using this
    · have := h5 0 []
      simpa [parseDigits] using this

theorem takeDigits_append (ds : Bytes) (c : Nat) (r : Bytes)
    (hds : ∀ x ∈ ds, isDigit x = true) (hc : isDigit c = false) :
    takeDigits (ds ++ c :: r) = (ds, c :: r) := by
  induction ds with
  | nil => simp [takeDigits, hc]
  | cons d ds ih =>
    have hd : isDigit d = true := hds d (by simp)
    have := ih (fun x hx => hds x (by simp [hx]))
    simp [takeDigits, hd, this]

theorem scanNat_formatNat (n : Nat) (c : Nat) (r : Bytes) (hc : isDigit c = false)
    (h1 : c ≠ 0x2E) (h2 : c ≠ 0x65) (h3 : c ≠ 0x45) :
    ∃ d ds, formatNat n = d :: ds ∧ isDigit d = true ∧
      scanIntPart (formatNat n ++ c :: r) = some (formatNat n, c :: r) ∧
      scanFrac (c :: r) = some ([], c :: r) ∧ scanExp (c :: r) = some ([], c :: r) := by
  obtain ⟨d, ds, hf, hd, hds, h0, _⟩ := formatNat_spec n
  refine ⟨d, ds, hf, hd, ?_, ?_, ?_⟩
  · rw [hf]
    by_cases hz : d = 48
    · have := h0 hz; subst this; subst hz
      simp [scanIntPart]
    · simp [scanIntPart, hz, hd, takeDigits_append ds c r hds hc]
  · simp [scanFrac, h1]
  · simp [scanExp, h2, h3]

theorem isDigit_bounds {d : Nat} (h : isDigit d = true) : 48 ≤ d ∧ d ≤ 57 := by
  simpa [isDigit] using h

theorem scanNumber_formatInt (v : Int) (c : Nat) (r : Bytes) (hc : isDigit c = false)
    (h1 : c ≠ 0x2E) (h2 : c ≠ 0x65) (h3 : c ≠ 0x45) :
    scanNumber (formatInt v ++ c :: r) = some (formatInt v, c :: r) := by
  obtain ⟨d, ds, hf, hd, hi, hfr, hex⟩ := scanNat_formatNat v.natAbs c r hc h1 h2 h3
  have hdb := isDigit_bounds hd
  unfold formatInt
  split_ifs
  · simp [scanNumber, scanUnsigned, hi, hfr, hex]
  · have hne : d ≠ 0x2D := by omega
    rw [hf] at hi ⊢
    simp only [List.cons_append] at hi ⊢
    simp [scanNumber, scanUnsigned, hne, hi, hfr, hex]

theorem parseInt_formatInt (v : Int) (hv : inInt64 v) : parseInt (formatInt v) = some v := by
  obtain ⟨d, ds, hf, hd, _, _, hp⟩ := formatNat_spec v.natAbs
  have hdb := isDigit_bounds hd
  unfold inInt64 at hv
  unfold formatInt
  by_cases hneg : v < 0
  · have hab : (v.natAbs : Int) = -v := Int.ofNat_natAbs_of_nonpos (by omega)
    generalize v.natAbs = N at hf hp hab
    have hN : N ≤ 9223372036854775808 := by omega
    have hv' : -(N : Int) = v := by omega
    rw [if_pos hneg, hf]
    simp [parseInt, hp, hN, hv']
  · have hab : (v.natAbs : Int) = v := Int.natAbs_of_nonneg (by omega)
    generalize v.natAbs = N at hf hp hab
    have hN : N ≤ 9223372036854775807 := by omega
    have h1 : d ≠ 0x2D := by omega
    have h2 : d ≠ 0x2B := by omega
    rw [if_neg hneg, hf]
    simp [parseInt, hp, hN, hab]

theorem scanValue_formatInt (fuel : Nat) (v : Int) (c : Nat) (r : Bytes) (hc : isDigit c = false)
    (h1 : c ≠ 0x2E) (h2 : c ≠ 0x65) (h3 : c ≠ 0x45) :
    scanValue fuel (formatInt v ++ c :: r) = some (Tok.num (formatInt v), c :: r) := by
  have hs := scanNumber_formatInt v c r hc h1 h2 h3
  obtain ⟨d, ds, hf, hd, _⟩ := formatNat_spec v.natAbs
  have hdb := isDigit_bounds hd
  unfold formatInt at hs ⊢
  split_ifs at hs ⊢ with hneg
  · simp only [List.cons_append] at hs ⊢
    simp [scanValue, scanScalar, hs]
  · rw [hf] at hs ⊢
    simp only [List.cons_append] at hs ⊢
    have e1 : d ≠ 0x5B := by omega
    have e2 : d ≠ 0x7B := by omega
    have e3 : d ≠ 0x22 := by omega
    have e4 : d ≠ 0x6E := by omega
    have e5 : d ≠ 0x74 := by omega
    have e6 : d ≠ 0x66 := by omega
    simp [scanValue, scanScalar, hs, e1, e2, e3, e4, e5, e6, hd]

/-! ### Objects -/

theorem marshalAsset_eq (a : Asset) :
    marshalAsset a = 0x7B :: (member .ID (appendString a.ID) ++ 0x2C ::
      (member .Issuerid (appendString a.Issuerid) ++ 0x2C ::
      (member .IssuerName (appendString a.IssuerName) ++ 0x2C ::
      (member .Owner (appendString a.Owner) ++ 0x2C ::
      (member .Value (formatInt a.Value) ++ 0x2C ::
      (member .State (appendString a.State) ++ 0x2C ::
      (member .Category (appendString a.Category) ++ 0x2C ::
      (member .AssetName (appendString a.AssetName) ++ 0x2C ::
      (member .Account (appendString a.Account) ++ 0x2C ::
      (member .Amount (appendString a.Amount) ++ 0x2C ::
      (member .Destination (appendString a.Destination) ++ 0x2C ::
      (member .Hash (appendString a.Hash) ++ [0x7D])))))))))))) := by
  simp [marshalAsset, member, Field.name, ascii]

theorem unquote_name (f : Field) (X : Bytes) : unquote (f.name ++ 0x22 :: X) = some (f.name, X) := by
  cases f <;> simp [Field.name, ascii, unquote, unquote.go]

theorem findField_name (f : Field) : findField f.name = some f := by
  cases f <;> decide

theorem decodeMembers_comma (fuel : Nat) (f : Field) (val : Bytes) (tok : Tok)
    (r : Bytes) (a a' : Asset) (bad : Bool)
    (hsp : skipSpace (val ++ 0x2C :: r) = val ++ 0x2C :: r)
    (hscan : scanValue fuel (val ++ 0x2C :: r) = some (tok, 0x2C :: r))
    (hstore : storeField f tok a = some a') :
    decodeMembers (fuel + 1) (member f val ++ 0x2C :: r) a bad =
      decodeMembers fuel (skipSpace r) a' bad := by
  have hu : unquote (f.name ++ 0x22 :: 0x3A :: (val ++ 0x2C :: r)) =
      some (f.name, 0x3A :: (val ++ 0x2C :: r)) := unquote_name f _
  simp only [member, List.cons_append, List.append_assoc]
  rw [decodeMembers]
  simp only [hu]
  have hc : skipSpace (0x3A :: (val ++ 0x2C :: r)) = 0x3A :: (val ++ 0x2C :: r) := by
    simp [skipSpace, isSpace]
  simp only [hc, hsp, hscan, findField_name, hstore]
  simp [skipSpace, isSpace]

theorem decodeMembers_close (fuel : Nat) (f : Field) (val : Bytes) (tok : Tok)
    (r : Bytes) (a a' : Asset) (bad : Bool)
    (hsp : skipSpace (val ++ 0x7D :: r) = val ++ 0x7D :: r)
    (hscan : scanValue fuel (val ++ 0x7D :: r) = some (tok, 0x7D :: r))
    (hstore : storeField f tok a = some a') :
    decodeMembers (fuel + 1) (member f val ++ 0x7D :: r) a bad = some (a', bad, r) := by
  have hu : unquote (f.name ++ 0x22 :: 0x3A :: (val ++ 0x7D :: r)) =
      some (f.name, 0x3A :: (val ++ 0x7D :: r)) := unquote_name f _
  simp only [member, List.cons_append, List.append_assoc]
  rw [decodeMembers]
  simp only [hu]
  have hc : skipSpace (0x3A :: (val ++ 0x7D :: r)) = 0x3A :: (val ++ 0x7D :: r) := by
    simp [skipSpace, isSpace]
  simp only [hc, hsp, hscan, findField_name, hstore]
  simp [skipSpace, isSpace]

theorem scanValue_appendString (fuel : Nat) (v : Bytes) (r : Bytes) (hv : validUTF8 v = true) :
    skipSpace (appendString v ++ r) = appendString v ++ r ∧
      scanValue fuel (appendString v ++ r) = some (Tok.str v, r) := by
  have h := unquote_appendString_go v r hv
  constructor
  · simp [appendString, skipSpace, isSpace]
  · simp [appendString, scanValue, scanScalar, unquote, h]

theorem skipSpace_formatInt (v : Int) (r : Bytes) :
    skipSpace (formatInt v ++ r) = formatInt v ++ r := by
  obtain ⟨d, ds, hf, hd, _⟩ := formatNat_spec v.natAbs
  have hdb := isDigit_bounds hd
  unfold formatInt
  split_ifs
  · simp [skipSpace, isSpace]
  · rw [hf]
    have : isSpace d = false := by
      simp only [isSpace, Bool.or_eq_false_iff, beq_eq_false_iff_ne, ne_eq]
      omega
    simp [skipSpace, this]

theorem string_member (fuel : Nat) (f : Field) (hf : f ≠ .Value) (v r : Bytes) (a : Asset)
    (bad : Bool) (hv : validUTF8 v = true) :
    decodeMembers (fuel + 1) (member f (appendString v) ++ 0x2C :: 0x22 :: r) a bad =
      decodeMembers fuel (0x22 :: r) (a.setString f v) bad := by
  obtain ⟨h1, h2⟩ := scanValue_appendString fuel v (0x2C :: 0x22 :: r) hv
  rw [decodeMembers_comma fuel f _ (Tok.str v) _ a (a.setString f v) bad h1 h2
    (by simp [storeField, hf])]
  simp [skipSpace, isSpace]

theorem int_member (fuel : Nat) (v : Int) (r : Bytes) (a : Asset)
    (bad : Bool) (hv : inInt64 v) :
    decodeMembers (fuel + 1) (member .Value (formatInt v) ++ 0x2C :: 0x22 :: r) a bad =
      decodeMembers fuel (0x22 :: r) { a with Value := v } bad := by
  have h1 := skipSpace_formatInt v (0x2C :: 0x22 :: r)
  have h2 := scanValue_formatInt fuel v 0x2C (0x22 :: r) (by decide) (by decide) (by decide)
    (by decide)
  rw [decodeMembers_comma fuel .Value _ (Tok.num (formatInt v)) _ a { a with Value := v } bad
    h1 h2 (by simp [storeField, parseInt_formatInt v hv])]
  simp [skipSpace, isSpace]

theorem last_member (fuel : Nat) (f : Field) (hf : f ≠ .Value) (v : Bytes) (a : Asset)
    (bad : Bool) (hv : validUTF8 v = true) :
    decodeMembers (fuel + 1) (member f (appendString v) ++ [0x7D]) a bad =
      some (a.setString f v, bad, []) := by
  obtain ⟨h1, h2⟩ := scanValue_appendString fuel v [0x7D] hv
  exact decodeMembers_close fuel f _ (Tok.str v) _ a (a.setString f v) bad h1 h2
    (by simp [storeField, hf])

theorem string_member' (fuel : Nat) (f : Field) (hf : f ≠ .Value) (v : Bytes) (g : Field)
    (w Y : Bytes) (a : Asset) (bad : Bool) (hv : validUTF8 v = true) :
    decodeMembers (fuel + 1) (member f (appendString v) ++ 0x2C :: (member g w ++ Y)) a bad =
      decodeMembers fuel (member g w ++ Y) (a.setString f v) bad :=
  string_member fuel f hf v _ a bad hv

theorem int_member' (fuel : Nat) (v : Int) (g : Field) (w Y : Bytes) (a : Asset)
    (bad : Bool) (hv : inInt64 v) :
    decodeMembers (fuel + 1) (member .Value (formatInt v) ++ 0x2C :: (member g w ++ Y)) a bad =
      decodeMembers fuel (member g w ++ Y) { a with Value := v } bad :=
  int_member fuel v _ a bad hv

theorem unmarshalAsset_object (f : Field) (val X : Bytes) :
    unmarshalAsset (0x7B :: (member f val ++ X)) =
      match decodeMembers (2 * (0x7B :: (member f val ++ X)).length + 2) (member f val ++ X)
        Asset.zero false with
      | none => .error .malformed
      | some (a, bad, rest) =>
        if skipSpace rest ≠ [] then .error .malformed
        else if bad then .error .typeMismatch
        else .ok (some a) := by
  simp [unmarshalAsset, member, skipSpace, isSpace]

theorem unmarshal_marshal (a : Asset) (h : a.wellFormed) :
    unmarshalAsset (marshalAsset a) = .ok (some a) := by
  obtain ⟨h1, h2, h3, h4, h5, h6, h7, h8, h9, h10, h11, h12⟩ := h
  rw [marshalAsset_eq, unmarshalAsset_object]
  have hfuel : ∃ k, 2 * (marshalAsset a).length + 2 = k + 12 := by
    refine ⟨2 * (marshalAsset a).length + 2 - 12, ?_⟩
    have : 5 ≤ (marshalAsset a).length := by
      simp [marshalAsset, ascii]
    omega
  obtain ⟨k, hk⟩ := hfuel
  rw [marshalAsset_eq] at hk
  rw [hk]
  rw [string_member' (k + 11) .ID (by decide) _ _ _ _ _ _ h1,
    string_member' (k + 10) .Issuerid (by decide) _ _ _ _ _ _ h2,
    string_member' (k + 9) .IssuerName (by decide) _ _ _ _ _ _ h3,
    string_member' (k + 8) .Owner (by decide) _ _ _ _ _ _ h4,
    int_member' (k + 7) _ _ _ _ _ _ h5,
    string_member' (k + 6) .State (by decide) _ _ _ _ _ _ h6,
    string_member' (k + 5) .Category (by decide) _ _ _ _ _ _ h7,
    string_member' (k + 4) .AssetName (by decide) _ _ _ _ _ _ h8,
    string_member' (k + 3) .Account (by decide) _ _ _ _ _ _ h9,
    string_member' (k + 2) .Amount (by decide) _ _ _ _ _ _ h10,
    string_member' (k + 1) .Destination (by decide) _ _ _ _ _ _ h11,
    last_member k .Hash (by decide) _ _ _ h12]
  simp [skipSpace, Asset.setString, Asset.zero]

/-! ### What the decoder returns is well formed -/

theorem leadSize_eq_two {b : Nat} (h1 : 0xC2 ≤ b) (h2 : b < 0xE0) : leadSize b = 2 := by
  unfold leadSize; split_ifs <;> first | rfl | omega

theorem leadSize_eq_three {b : Nat} (h1 : 0xE0 ≤ b) (h2 : b < 0xF0) : leadSize b = 3 := by
  unfold leadSize; split_ifs <;> first | rfl | omega

theorem leadSize_eq_four {b : Nat} (h1 : 0xF0 ≤ b) (h2 : b < 0xF5) : leadSize b = 4 := by
  unfold leadSize; split_ifs <;> first | rfl | omega

theorem validUTF8_go_encodeRune (r : Nat) (s : Bytes) :
    validUTF8.go 0 (encodeRune r ++ s) = validUTF8.go 0 s := by
  unfold encodeRune
  split_ifs with h1 h2 h3 h4
  · simp [validUTF8.go]; omega
  · have hl : leadSize (0xC0 + r / 64) = 2 := leadSize_eq_two (by omega) (by omega)
    have ha : accepts (0xC0 + r / 64) (0x80 + r % 64) = true := by
      simp [accepts, acceptLo, acceptHi]; split_ifs <;> omega
    have hb : ¬ (0xC0 + r / 64 < 0x80) := by omega
    simp [validUTF8.go, decodeRune, hl, ha, hb]
  · simp [validUTF8.go, decodeRune, leadSize, accepts, acceptLo, acceptHi, isCont]
  · have hl : leadSize (0xE0 + r / 4096) = 3 := leadSize_eq_three (by omega) (by omega)
    have ha : accepts (0xE0 + r / 4096) (0x80 + r / 64 % 64) = true := by
      simp [accepts, acceptLo, acceptHi]; split_ifs <;> omega
    have hc : isCont (0x80 + r % 64) = true := by simp [isCont]; omega
    have hb : ¬ (0xE0 + r / 4096 < 0x80) := by omega
    simp [validUTF8.go, decodeRune, hl, ha, hb, hc]
  · have hl : leadSize (0xF0 + r / 262144) = 4 := leadSize_eq_four (by omega) (by omega)
    have ha : accepts (0xF0 + r / 262144) (0x80 + r / 4096 % 64) = true := by
      simp [accepts, acceptLo, acceptHi]; split_ifs <;> omega
    have hc : isCont (0x80 + r / 64 % 64) = true := by simp [isCont]; omega
    have hc2 : isCont (0x80 + r % 64) = true := by simp [isCont]; omega
    have hb : ¬ (0xF0 + r / 262144 < 0x80) := by omega
    simp [validUTF8.go, decodeRune, hl, ha, hb, hc, hc2]

theorem validUTF8_go_ascii (c : Nat) (s : Bytes) (hc : c < 0x80) :
    validUTF8.go 0 (c :: s) = validUTF8.go 0 s := by
  simp [validUTF8.go, hc]

theorem unescape_valid {t out : Bytes} {n : Nat} (h : unescape t = some (out, n)) (s : Bytes) :
    validUTF8.go 0 (out ++ s) = validUTF8.go 0 s := by
  unfold unescape at h
  split at h
  · simp at h
  · rename_i c t1
    split_ifs at h with h1 h2 h3 h4 h5 h6 h7
    · split at h
      · simp at h
      · rename_i rr hr
        by_cases hs : isSurrogate rr = true
        · by_cases hd : utf16DecodeRune rr (getu4 (List.drop 4 t1)) = runeError
          · simp only [hs, hd, if_true, ne_eq, not_true_eq_false, if_false, Option.some.injEq,
              Prod.mk.injEq] at h
            rw [← h.1]; exact validUTF8_go_encodeRune _ _
          · simp only [hs, hd, if_true, ne_eq, not_false_eq_true, Option.some.injEq,
              Prod.mk.injEq] at h
            rw [← h.1]; exact validUTF8_go_encodeRune _ _
        · simp only [hs, Bool.false_eq_true, if_false, Option.some.injEq, Prod.mk.injEq] at h
          rw [← h.1]; exact validUTF8_go_encodeRune _ _
    all_goals
      simp only [Option.some.injEq, Prod.mk.injEq] at h
      obtain ⟨h, _⟩ := h
      subst h
      exact validUTF8_go_ascii _ _ (by omega)

theorem unquote_go_valid (s : Bytes) : ∀ (k : Nat) (v rest : Bytes),
    unquote.go k s = some (v, rest) → validUTF8.go 0 v = true := by
  induction s with
  | nil => intro k v rest h; simp [unquote.go] at h
  | cons b t ih =>
    intro k v rest h
    cases k with
    | succ k => rw [unquote.go] at h; exact ih k v rest h
    | zero =>
      rw [unquote.go] at h
      split_ifs at h with h1 h2 h3 h4
      · simp only [Option.some.injEq, Prod.mk.injEq] at h
        rw [← h.1]; rfl
      · split at h
        · simp at h
        · rename_i out n hu
          obtain ⟨p, hp, hv⟩ := Option.map_eq_some'.1 h
          simp only [Prod.mk.injEq] at hv
          rw [← hv.1, unescape_valid hu]
          exact ih n p.1 p.2 hp
      · obtain ⟨p, hp, hv⟩ := Option.map_eq_some'.1 h
        simp only [Prod.mk.injEq] at hv
        rw [← hv.1, validUTF8_go_ascii _ _ h4]
        exact ih 0 p.1 p.2 hp
      · generalize decodeRune (b :: t) = d at h
        obtain ⟨rr, size⟩ := d
        obtain ⟨p, hp, hv⟩ := Option.map_eq_some'.1 h
        simp only [Prod.mk.injEq] at hv
        rw [← hv.1, validUTF8_go_encodeRune]
        exact ih _ p.1 p.2 hp

theorem unquote_valid {s v rest : Bytes} (h : unquote s = some (v, rest)) :
    validUTF8 v = true := unquote_go_valid s 0 v rest h

theorem parseInt_inInt64 {s : Bytes} {v : Int} (h : parseInt s = some v) : inInt64 v := by
  unfold parseInt at h
  unfold inInt64
  split at h
  · simp at h
  all_goals
    (try split_ifs at h)
    simp only [Option.bind_eq_some] at h
    obtain ⟨n, _, hn⟩ := h
    split_ifs at hn
    simp only [Option.some.injEq] at hn
    omega

theorem scanValue_str_valid {fuel : Nat} {s v r : Bytes}
    (h : scanValue fuel s = some (Tok.str v, r)) : validUTF8 v = true := by
  unfold scanValue at h
  split at h
  · simp at h
  · rename_i b t
    split_ifs at h
    · simp at h
    · unfold scanScalar at h
      simp only at h
      split_ifs at h <;> simp only [Option.map_eq_some', Prod.mk.injEq, Tok.str.injEq,
        reduceCtorEq, false_and, and_false, exists_false] at h
      obtain ⟨p, hp, hv, _⟩ := h
      rw [← hv]
      exact unquote_valid hp

theorem Asset.zero_wellFormed : Asset.zero.wellFormed := by
  unfold Asset.wellFormed; decide

theorem storeField_wellFormed {f : Field} {tok : Tok} {a a' : Asset}
    (htok : ∀ v, tok = Tok.str v → validUTF8 v = true)
    (h : storeField f tok a = some a') (ha : a.wellFormed) : a'.wellFormed := by
  unfold storeField at h
  split at h
  · simp only [Option.some.injEq] at h; subst h; exact ha
  · rename_i v
    split_ifs at h
    simp only [Option.some.injEq] at h
    subst h
    have hv := htok v rfl
    obtain ⟨h1, h2, h3, h4, h5, h6, h7, h8, h9, h10, h11, h12⟩ := ha
    cases f <;> simp only [Asset.setString, Asset.wellFormed] <;>
      exact ⟨by assumption, by assumption, by assumption, by assumption, by assumption,
        by assumption, by assumption, by assumption, by assumption, by assumption,
        by assumption, by assumption⟩
  · rename_i lit
    split_ifs at h
    · simp only [Option.map_eq_some'] at h
      obtain ⟨v, hv, h⟩ := h
      subst h
      obtain ⟨h1, h2, h3, h4, _, h6, h7, h8, h9, h10, h11, h12⟩ := ha
      exact ⟨h1, h2, h3, h4, parseInt_inInt64 hv, h6, h7, h8, h9, h10, h11, h12⟩
  · simp at h
  · simp at h

theorem decodeMembers_wellFormed (fuel : Nat) : ∀ (s : Bytes) (a : Asset) (bad : Bool)
    (a' : Asset) (bad' : Bool) (rest : Bytes),
    decodeMembers fuel s a bad = some (a', bad', rest) → a.wellFormed → a'.wellFormed := by
  induction fuel with
  | zero => intro s a bad a' bad' rest h; simp [decodeMembers] at h
  | succ fuel ih =>
    intro s a bad a' bad' rest h ha
    rw [decodeMembers.eq_def] at h
    simp only at h
    split at h
    · rename_i t
      split at h
      · simp at h
      · rename_i key r hu
        split at h
        · rename_i r1 hr1
          split at h
          · simp at h
          · rename_i tok r2 hs
            have hst : (match findField key with
                | none => (a, bad)
                | some f =>
                  match storeField f tok a with
                  | some a1 => (a1, bad)
                  | none => (a, true)).1.wellFormed := by
              split
              · exact ha
              · split
                · rename_i f a1 hsf
                  exact storeField_wellFormed
                    (fun v hv => scanValue_str_valid (hv ▸ hs)) hsf ha
                · exact ha
            split at h
            · exact ih _ _ _ _ _ _ h hst
            · simp only [Option.some.injEq, Prod.mk.injEq] at h
              rw [← h.1]; exact hst
            · simp at h
        · simp at h
    · simp at h

/-- Whatever record `json.Unmarshal` returns has valid UTF-8 strings and a `Value` in the
range of `int`. -/
theorem unmarshalAsset_wellFormed {data : Bytes} {a : Asset}
    (h : unmarshalAsset data = .ok (some a)) : a.wellFormed := by
  unfold unmarshalAsset at h
  simp only at h
  split at h
  · rename_i t ht
    split at h
    · simp at h
    · rename_i a0 bad rest hr
      split_ifs at h
      simp only [Except.ok.injEq, Option.some.injEq] at h
      subst h
      split at hr
      · simp only [Option.some.injEq, Prod.mk.injEq] at hr
        rw [← hr.1]; exact Asset.zero_wellFormed
      · exact decodeMembers_wellFormed _ _ _ _ _ _ _ hr Asset.zero_wellFormed
  · split at h
    · simp at h
    · split_ifs at h; simp at h

/-! ### The ledger -/

theorem lookupKV_insertKV_self (key value : Bytes) (w : List (Bytes × Bytes)) :
    lookupKV key (insertKV key value w) = some value := by
  induction w with
  | nil => simp [insertKV, lookupKV]
  | cons e w ih =>
    obtain ⟨k, v⟩ := e
    unfold insertKV
    split_ifs with h1 h2
    · simp [lookupKV]
    · simp [lookupKV]
    · have : ¬ k = key := fun h => h1 h.symm
      simp [lookupKV, this, ih]

theorem lookupKV_insertKV_ne (key value key1 : Bytes) (w : List (Bytes × Bytes))
    (h : key1 ≠ key) : lookupKV key1 (insertKV key value w) = lookupKV key1 w := by
  induction w with
  | nil => simp [insertKV, lookupKV, Ne.symm h]
  | cons e w ih =>
    obtain ⟨k, v⟩ := e
    unfold insertKV
    split_ifs with h1 h2
    · subst h1; simp [lookupKV, Ne.symm h]
    · simp [lookupKV, Ne.symm h]
    · simp [lookupKV, ih]

theorem GetState_ok {ctx : Stub} {key : Bytes} {r : Option Bytes}
    (h : ctx.GetState key = .ok r) : ctx.getErr key = none ∧ lookupKV key ctx.world = r := by
  unfold Stub.GetState at h
  split at h
  · simp at h
  · rename_i he
    simp only [Except.ok.injEq] at h
    exact ⟨he, h⟩

theorem PutState_ok (ctx : Stub) (key value : Bytes) (h : ctx.putErr key value = none) :
    ctx.PutState key value = (.ok (), { ctx with world := insertKV key value ctx.world }) := by
  simp [Stub.PutState, h]

theorem GetState_after_put (ctx : Stub) (key value : Bytes) (h : ctx.getErr key = none) :
    Stub.GetState { ctx with world := insertKV key value ctx.world } key = .ok (some value) := by
  simp [Stub.GetState, h, lookupKV_insertKV_self]

/-! ### The contract methods -/

theorem CreateAsset_absent (ctx : Stub) (id issueID issueName owner : Bytes)
    (appraisedValue : Int) (cat assetName : Bytes)
    (habsent : ctx.GetState id = .ok none)
    (hput : ∀ value, ctx.putErr id value = none) :
    CreateAsset ctx id issueID issueName owner appraisedValue cat assetName =
      (.ok (),
       { ctx with
         world := insertKV id
           (marshalAsset (issued id issueID issueName owner appraisedValue cat assetName))
           ctx.world }) := by
  simp [CreateAsset, AssetExists, habsent, Marshal, PutState_ok, hput, issued]

theorem ReadAsset_stored (ctx : Stub) (id value : Bytes) (a : Asset)
    (hget : ctx.GetState id = .ok (some value)) (hdec : unmarshalAsset value = .ok (some a)) :
    ReadAsset ctx id = .ok (some a) := by
  simp [ReadAsset, hget, hdec]

theorem TransferAsset_stored (ctx : Stub) (id newOwner amount account destination hash : Bytes)
    (stored : Bytes) (a : Asset)
    (hstored : ctx.GetState id = .ok (some stored))
    (hdec : unmarshalAsset stored = .ok (some a))
    (hput : ∀ value, ctx.putErr id value = none) :
    TransferAsset ctx id newOwner amount account destination hash =
      (.ok (),
       { ctx with
         world := insertKV id
           (marshalAsset (transferred a newOwner amount account destination hash))
           ctx.world }) := by
  simp [TransferAsset, ReadAsset_stored ctx id stored a hstored hdec, Marshal, PutState_ok,
    hput, transferred]

theorem CreateAsset_error_unchanged (ctx : Stub) (id issueID issueName owner : Bytes)
    (appraisedValue : Int) (cat assetName : Bytes) (e : Error)
    (h : (CreateAsset ctx id issueID issueName owner appraisedValue cat assetName).1 = .error e) :
    (CreateAsset ctx id issueID issueName owner appraisedValue cat assetName).2 = ctx := by
  unfold CreateAsset at h ⊢
  cases hA : AssetExists ctx id with
  | error e1 => simp
  | ok b =>
    cases b with
    | true => simp
    | false =>
      simp only [hA, Marshal] at h ⊢
      cases hP : ctx.putErr id (marshalAsset
          { ID := id, Issuerid := issueID, IssuerName := issueName, Owner := owner,
            Value := appraisedValue, State := ascii "Issued", Category := cat,
            AssetName := assetName, Account := [], Amount := [], Destination := [],
            Hash := [] }) with
      | none => simp [Stub.PutState, hP] at h
      | some e2 => simp [Stub.PutState, hP]

theorem TransferAsset_error_unchanged (ctx : Stub)
    (id newOwner amount account destination hash : Bytes) (e : Error)
    (h : (TransferAsset ctx id newOwner amount account destination hash).1 = .error e) :
    (TransferAsset ctx id newOwner amount account destination hash).2 = ctx := by
  unfold TransferAsset at h ⊢
  cases hR : ReadAsset ctx id with
  | error e1 => simp
  | ok p =>
    cases p with
    | none => simp
    | some asset0 =>
      simp only [hR, Marshal] at h ⊢
      cases hP : ctx.putErr id (marshalAsset
          { asset0 with Owner := newOwner, Amount := amount, Account := account,
                        Destination := destination, Hash := hash }) with
      | none => simp [Stub.PutState, hP] at h
      | some e2 => simp [Stub.PutState, hP]

theorem CreateAsset_cases (ctx : Stub) (id issueID issueName owner : Bytes)
    (appraisedValue : Int) (cat assetName : Bytes) :
    (∃ e, CreateAsset ctx id issueID issueName owner appraisedValue cat assetName =
        (.error e, ctx)) ∨
    (ctx.GetState id = .ok none ∧ ∃ value,
      CreateAsset ctx id issueID issueName owner appraisedValue cat assetName =
        (.ok (), { ctx with world := insertKV id value ctx.world })) := by
  unfold CreateAsset AssetExists
  cases hG : ctx.GetState id with
  | error e1 => left; exact ⟨_, rfl⟩
  | ok r =>
    cases r with
    | some v => left; exact ⟨_, rfl⟩
    | none =>
      simp only [Option.isSome_none, Marshal]
      cases hP : ctx.putErr id (marshalAsset
          { ID := id, Issuerid := issueID, IssuerName := issueName, Owner := owner,
            Value := appraisedValue, State := ascii "Issued", Category := cat,
            AssetName := assetName, Account := [], Amount := [], Destination := [],
            Hash := [] }) with
      | none =>
        right
        refine ⟨trivial,
          marshalAsset (issued id issueID issueName owner appraisedValue cat assetName), ?_⟩
        simp [Stub.PutState, hP, issued]
      | some e2 => left; refine ⟨.ledger e2, ?_⟩; simp [Stub.PutState, hP]

theorem TransferAsset_cases (ctx : Stub) (id newOwner amount account destination hash : Bytes) :
    (∃ e, TransferAsset ctx id newOwner amount account destination hash = (.error e, ctx)) ∨
    (∃ stored value, ctx.GetState id = .ok (some stored) ∧
      TransferAsset ctx id newOwner amount account destination hash =
        (.ok (), { ctx with world := insertKV id value ctx.world })) := by
  unfold TransferAsset ReadAsset
  cases hG : ctx.GetState id with
  | error e1 => left; exact ⟨_, rfl⟩
  | ok r =>
    cases r with
    | none => left; exact ⟨_, rfl⟩
    | some stored =>
      simp only
      cases hU : unmarshalAsset stored with
      | error e2 => left; exact ⟨_, rfl⟩
      | ok p =>
        cases p with
        | none => left; exact ⟨_, rfl⟩
        | some asset0 =>
          simp only [Marshal]
          cases hP : ctx.putErr id (marshalAsset
              { asset0 with Owner := newOwner, Amount := amount, Account := account,
                            Destination := destination, Hash := hash }) with
          | none =>
            right
            refine ⟨stored,
              marshalAsset (transferred asset0 newOwner amount account destination hash),
              rfl, ?_⟩
            simp [Stub.PutState, hP, transferred]
          | some e3 => left; refine ⟨.ledger e3, ?_⟩; simp [Stub.PutState, hP]

theorem GetState_insert_ne (ctx : Stub) (key value key1 : Bytes) (h : key1 ≠ key) :
    Stub.GetState { ctx with world := insertKV key value ctx.world } key1 =
      ctx.GetState key1 := by
  simp [Stub.GetState, lookupKV_insertKV_ne key value key1 ctx.world h]

theorem GetAllAssets_GetState (ctx : Stub) (key : Bytes) :
    (GetAllAssets ctx).2.GetState key = ctx.GetState key := by
  unfold GetAllAssets Stub.GetStateByRange
  cases ctx.rangeErr <;> rfl

theorem GetAssetByCat_GetState (tbl : Nat → Nat) (ctx : Stub) (cat key : Bytes) :
    (GetAssetByCat tbl ctx cat).2.GetState key = ctx.GetState key := by
  unfold GetAssetByCat Stub.GetStateByRange
  cases ctx.rangeErr <;> rfl

theorem NeverCreated_absent (id : Bytes) (ctx : Stub) (h : NeverCreated id ctx) :
    ctx.GetState id = .ok none := by
  induction h with
  | empty ctx h => exact h id
  | create ctx id1 issueID issueName owner appraisedValue cat assetName _ hne ih =>
    rcases CreateAsset_cases ctx id1 issueID issueName owner appraisedValue cat assetName with
      ⟨e, he⟩ | ⟨_, value, hv⟩
    · rw [he]; exact ih
    · rw [hv]
      have hid : id ≠ id1 := by
        intro heq
        exact hne heq.symm (by rw [hv])
      rw [GetState_insert_ne ctx id1 value id hid]
      exact ih
  | transfer ctx id1 newOwner amount account destination hash _ ih =>
    rcases TransferAsset_cases ctx id1 newOwner amount account destination hash with
      ⟨e, he⟩ | ⟨stored, value, hs, hv⟩
    · rw [he]; exact ih
    · rw [hv]
      have hid : id ≠ id1 := by
        intro heq
        rw [← heq, ih] at hs
        simp at hs
      rw [GetState_insert_ne ctx id1 value id hid]
      exact ih
  | byCat ctx tbl cat _ ih => rw [GetAssetByCat_GetState]; exact ih
  | all ctx _ ih => rw [GetAllAssets_GetState]; exact ih

theorem decodes_decoded {value : Bytes} (h : decodes value = true) :
    unmarshalAsset value = .ok (some (decoded value)) := by
  unfold decodes at h
  unfold decoded
  split at h
  · rename_i a ha; simp [ha]
  · simp at h

theorem GetAllAssets_loop_ok (ctx : Stub) (items : List (Bytes × Bytes)) :
    ∀ (pos : Nat) (assets : List (Option Asset)),
      (∀ n, n < items.length → ctx.nextErr (pos + n) = none) →
      (∀ kv ∈ items, decodes kv.2 = true) →
      GetAllAssets.loop ctx pos items assets =
        .ok (assets ++ items.map fun kv => some (decoded kv.2)) := by
  induction items with
  | nil => intro pos assets _ _; simp [GetAllAssets.loop]
  | cons kv rest ih =>
    intro pos assets hn hd
    have h0 : ctx.nextErr pos = none := by simpa using hn 0 (by simp)
    have hkv := decodes_decoded (hd kv (by simp))
    rw [GetAllAssets.loop]
    simp only [h0, hkv]
    rw [ih (pos + 1) _ (fun n hlt => by
        have := hn (n + 1) (by simp; omega)
        rwa [show pos + 1 + n = pos + (n + 1) by omega])
      (fun kv1 h1 => hd kv1 (by simp [h1]))]
    simp

theorem GetAssetByCat_loop_ok (tbl : Nat → Nat) (ctx : Stub) (cat : Bytes)
    (items : List (Bytes × Bytes)) :
    ∀ (pos : Nat) (assets : List (Option Asset)),
      (∀ n, n < items.length → ctx.nextErr (pos + n) = none) →
      (∀ kv ∈ items, decodes kv.2 = true) →
      GetAssetByCat.loop tbl ctx cat pos items assets =
        .ok (assets ++ ((items.map fun kv => decoded kv.2).filter
          fun a => decide (ToLower tbl a.Category = ToLower tbl cat)).map some) := by
  induction items with
  | nil => intro pos assets _ _; simp [GetAssetByCat.loop]
  | cons kv rest ih =>
    intro pos assets hn hd
    have h0 : ctx.nextErr pos = none := by simpa using hn 0 (by simp)
    have hkv := decodes_decoded (hd kv (by simp))
    have hrest : ∀ n, n < rest.length → ctx.nextErr (pos + 1 + n) = none := fun n hlt => by
      have := hn (n + 1) (by simp; omega)
      rwa [show pos + 1 + n = pos + (n + 1) by omega]
    have hd' : ∀ kv1 ∈ rest, decodes kv1.2 = true := fun kv1 h1 => hd kv1 (by simp [h1])
    rw [GetAssetByCat.loop]
    simp only [h0, hkv]
    by_cases hm : ToLower tbl (decoded kv.2).Category = ToLower tbl cat
    · rw [if_pos hm, ih (pos + 1) _ hrest hd']
      simp [List.filter_cons, hm]
    · rw [if_neg hm, ih (pos + 1) _ hrest hd']
      simp [List.filter_cons, hm]

theorem keyLt_irrefl (a : Bytes) : keyLt a a = false := by
  induction a with
  | nil => rfl
  | cons x xs ih => simp [keyLt, ih]

theorem keyLt_trans : ∀ (a b c : Bytes), keyLt a b = true → keyLt b c = true →
    keyLt a c = true := by
  intro a
  induction a with
  | nil =>
    intro b c h1 h2
    cases b with
    | nil => simp [keyLt] at h1
    | cons y ys =>
      cases c with
      | nil => simp [keyLt] at h2
      | cons z zs => simp [keyLt]
  | cons x xs ih =>
    intro b c h1 h2
    cases b with
    | nil => simp [keyLt] at h1
    | cons y ys =>
      cases c with
      | nil => simp [keyLt] at h2
      | cons z zs =>
        simp only [keyLt] at h1 h2 ⊢
        split_ifs at h1 h2 ⊢ with p1 p2 p3 p4 p5 p6 <;>
          first
          | rfl
          | omega
          | exact ih ys zs h1 h2

theorem keyLt_total : ∀ (a b : Bytes), a ≠ b → keyLt a b = false → keyLt b a = true := by
  intro a
  induction a with
  | nil =>
    intro b hne h
    cases b with
    | nil => exact absurd rfl hne
    | cons y ys => simp [keyLt] at h
  | cons x xs ih =>
    intro b hne h
    cases b with
    | nil => simp [keyLt]
    | cons y ys =>
      simp only [keyLt] at h ⊢
      by_cases hxy : x < y
      · simp [hxy] at h
      · by_cases hyx : y < x
        · simp [hyx]
        · have he : x = y := by omega
          subst he
          simp only [hxy, if_false, if_true] at h ⊢
          exact ih ys (fun e => hne (by rw [e])) h

theorem lookupKV_of_mem (w : List (Bytes × Bytes))
    (hwf : w.Pairwise fun a b => keyLt a.1 b.1 = true) :
    ∀ kv ∈ w, lookupKV kv.1 w = some kv.2 := by
  induction w with
  | nil => intro kv h; simp at h
  | cons e rest ih =>
    obtain ⟨k, v⟩ := e
    rw [List.pairwise_cons] at hwf
    intro kv h
    rcases List.mem_cons.1 h with h | h
    · subst h; simp [lookupKV]
    · have hlt := hwf.1 kv h
      have hne : ¬ k = kv.1 := by
        intro heq
        simp only at hlt
        rw [heq, keyLt_irrefl] at hlt
        simp at hlt
      simp [lookupKV, hne, ih hwf.2 kv h]

theorem insertKV_keys (key value : Bytes) (w : List (Bytes × Bytes)) :
    ∀ kv ∈ insertKV key value w, kv = (key, value) ∨ kv ∈ w := by
  induction w with
  | nil => intro kv h; simp [insertKV] at h; exact Or.inl h
  | cons e rest ih =>
    obtain ⟨k, v⟩ := e
    intro kv h
    unfold insertKV at h
    split_ifs at h with h1 h2
    · rcases List.mem_cons.1 h with h | h
      · exact Or.inl h
      · exact Or.inr (List.mem_cons_of_mem _ h)
    · rcases List.mem_cons.1 h with h | h
      · exact Or.inl h
      · exact Or.inr h
    · rcases List.mem_cons.1 h with h | h
      · exact Or.inr (by rw [h]; exact List.mem_cons_self _ _)
      · rcases ih kv h with h | h
        · exact Or.inl h
        · exact Or.inr (List.mem_cons_of_mem _ h)

/-- A put keeps the keys of the world state strictly ascending. -/
theorem insertKV_pairwise (key value : Bytes) (w : List (Bytes × Bytes))
    (hwf : w.Pairwise fun a b => keyLt a.1 b.1 = true) :
    (insertKV key value w).Pairwise fun a b => keyLt a.1 b.1 = true := by
  induction w with
  | nil => simp [insertKV]
  | cons e rest ih =>
    obtain ⟨k, v⟩ := e
    rw [List.pairwise_cons] at hwf
    unfold insertKV
    split_ifs with h1 h2
    · subst h1
      exact List.pairwise_cons.2 ⟨hwf.1, hwf.2⟩
    · refine List.pairwise_cons.2 ⟨?_, List.pairwise_cons.2 hwf⟩
      intro kv h
      rcases List.mem_cons.1 h with h | h
      · rw [h]; exact h2
      · exact keyLt_trans _ _ _ h2 (hwf.1 kv h)
    · refine List.pairwise_cons.2 ⟨?_, ih hwf.2⟩
      intro kv h
      rcases insertKV_keys key value rest kv h with h | h
      · rw [h]
        exact keyLt_total key k h1 (by simpa using h2)
      · exact hwf.1 kv h

/-- Every invocation of `CreateAsset` keeps the world state well formed. -/
theorem CreateAsset_WF (ctx : Stub) (id issueID issueName owner : Bytes)
    (appraisedValue : Int) (cat assetName : Bytes) (hwf : ctx.WF) :
    (CreateAsset ctx id issueID issueName owner appraisedValue cat assetName).2.WF := by
  rcases CreateAsset_cases ctx id issueID issueName owner appraisedValue cat assetName with
    ⟨e, he⟩ | ⟨_, value, hv⟩
  · rw [he]; exact hwf
  · rw [hv]; exact insertKV_pairwise id value ctx.world hwf

/-- Every invocation of `TransferAsset` keeps the world state well formed. -/
theorem TransferAsset_WF (ctx : Stub) (id newOwner amount account destination hash : Bytes)
    (hwf : ctx.WF) :
    (TransferAsset ctx id newOwner amount account destination hash).2.WF := by
  rcases TransferAsset_cases ctx id newOwner amount account destination hash with
    ⟨e, he⟩ | ⟨_, value, _, hv⟩
  · rw [he]; exact hwf
  · rw [hv]; exact insertKV_pairwise id value ctx.world hwf

/-! ### Further lemmas: coerced round trip, listing, reachable ledgers -/

theorem coerceUTF8_go_skip (pre s : Bytes) :
    coerceUTF8.go pre.length (pre ++ s) = pre ++ coerceUTF8.go 0 s := by
  induction pre with
  | nil => rfl
  | cons a pre ih => simpa [coerceUTF8.go] using ih

theorem decodeRune_invalid (b : Nat) (t : Bytes) (hb : ¬ b < 0x80)
    (hsz : (decodeRune (b :: t)).2 = 1) : decodeRune (b :: t) = (runeError, 1) := by
  unfold decodeRune at hsz ⊢
  simp only [hb, if_false] at hsz ⊢
  split at hsz <;> first | rfl | (split_ifs at hsz ⊢ <;> first | rfl | simp at hsz)

theorem unquote_go_replacement (X : Bytes) :
    unquote.go 0 (ascii "\\ufffd" ++ X) =
      (unquote.go 0 X).map fun p => ([0xEF, 0xBF, 0xBD] ++ p.1, p.2) := by
  have e : encodeRune 65533 = [0xEF, 0xBF, 0xBD] := by decide
  simp [unquote.go, unescape, getu4, ascii, hexVal, isSurrogate, e]

/-- String round trip in general: the decoder reads a marshalled string back as its coerced
form. -/
theorem unquote_appendString_go_coerce (s : Bytes) :
    ∀ rest, unquote.go 0 (appendString.go 0 s ++ 0x22 :: rest) =
      some (coerceUTF8.go 0 s, rest) := by
  induction' hn : s.length using Nat.strong_induction_on with n ih generalizing s
  intro rest
  cases s with
  | nil => simp [appendString.go, unquote.go, coerceUTF8.go]
  | cons b t =>
    by_cases hb : b < 0x80
    · rw [appendString.go, if_pos hb, List.append_assoc, unquote_go_ascii b _ hb,
        ih t.length (by simp [← hn]) t rfl rest, coerceUTF8.go, if_pos hb]
      rfl
    · by_cases hsz : (decodeRune (b :: t)).2 = 1
      · have hd := decodeRune_invalid b t hb hsz
        rw [appendString.go, if_neg hb, hd]
        simp only [and_self, if_true]
        rw [List.append_assoc, unquote_go_replacement,
          ih t.length (by simp [← hn]) t rfl rest, coerceUTF8.go, if_neg hb, if_pos hsz]
        rfl
      · obtain ⟨pre, t', ht, hlen, henc, _, hdec⟩ := decodeRune_multibyte b t hb hsz
        subst ht
        have hd : decodeRune (b :: (pre ++ t')) =
            ((decodeRune (b :: (pre ++ t'))).1, pre.length + 1) := by
          rw [← hlen]
        have hpre : pre ≠ [] := by
          intro h; subst h; simp at hlen; exact hsz hlen
        rw [appendString_go_multibyte b pre t' _ hb hd hpre, List.append_assoc,
          unquote_go_chunk b pre _ _ hb ((hdec _).trans hd) henc,
          ih t'.length (by simp [← hn]; omega) t' rfl rest, coerceUTF8.go, if_neg hb,
          if_neg hsz, hlen, Nat.add_sub_cancel, coerceUTF8_go_skip]
        simp

theorem coerceUTF8_valid (s : Bytes) (hv : validUTF8 s = true) : coerceUTF8 s = s := by
  have h1 := unquote_appendString_go s [] hv
  have h2 := unquote_appendString_go_coerce s []
  rw [h1] at h2
  simp only [Option.some.injEq, Prod.mk.injEq, and_true] at h2
  exact h2.symm

theorem scanValue_appendString_coerce (fuel : Nat) (v : Bytes) (r : Bytes) :
    skipSpace (appendString v ++ r) = appendString v ++ r ∧
      scanValue fuel (appendString v ++ r) = some (Tok.str (coerceUTF8 v), r) := by
  have h := unquote_appendString_go_coerce v r
  constructor
  · simp [appendString, skipSpace, isSpace]
  · simp [appendString, scanValue, scanScalar, unquote, h, coerceUTF8]

theorem string_member_coerce (fuel : Nat) (f : Field) (hf : f ≠ .Value) (v : Bytes)
    (g : Field) (w Y : Bytes) (a : Asset) (bad : Bool) :
    decodeMembers (fuel + 1) (member f (appendString v) ++ 0x2C :: (member g w ++ Y)) a bad =
      decodeMembers fuel (member g w ++ Y) (a.setString f (coerceUTF8 v)) bad := by
  obtain ⟨h1, h2⟩ := scanValue_appendString_coerce fuel v (0x2C :: (member g w ++ Y))
  rw [decodeMembers_comma fuel f _ (Tok.str (coerceUTF8 v)) _ a
    (a.setString f (coerceUTF8 v)) bad h1 h2 (by simp [storeField, hf])]
  simp [member, skipSpace, isSpace]

theorem last_member_coerce (fuel : Nat) (f : Field) (hf : f ≠ .Value) (v : Bytes) (a : Asset)
    (bad : Bool) :
    decodeMembers (fuel + 1) (member f (appendString v) ++ [0x7D]) a bad =
      some (a.setString f (coerceUTF8 v), bad, []) := by
  obtain ⟨h1, h2⟩ := scanValue_appendString_coerce fuel v [0x7D]
  exact decodeMembers_close fuel f _ (Tok.str (coerceUTF8 v)) _ a
    (a.setString f (coerceUTF8 v)) bad h1 h2 (by simp [storeField, hf])

/-- The round trip in general: whatever `json.Marshal` writes for an asset decodes, and it
decodes to the asset with its strings coerced to valid UTF-8. -/
theorem unmarshal_marshal_coerced (a : Asset) (h5 : inInt64 a.Value) :
    unmarshalAsset (marshalAsset a) = .ok (some a.coerced) := by
  rw [marshalAsset_eq, unmarshalAsset_object]
  have hfuel : ∃ k, 2 * (marshalAsset a).length + 2 = k + 12 := by
    refine ⟨2 * (marshalAsset a).length + 2 - 12, ?_⟩
    have : 5 ≤ (marshalAsset a).length := by
      simp [marshalAsset, ascii]
    omega
  obtain ⟨k, hk⟩ := hfuel
  rw [marshalAsset_eq] at hk
  rw [hk]
  rw [string_member_coerce (k + 11) .ID (by decide),
    string_member_coerce (k + 10) .Issuerid (by decide),
    string_member_coerce (k + 9) .IssuerName (by decide),
    string_member_coerce (k + 8) .Owner (by decide),
    int_member' (k + 7) _ _ _ _ _ _ h5,
    string_member_coerce (k + 6) .State (by decide),
    string_member_coerce (k + 5) .Category (by decide),
    string_member_coerce (k + 4) .AssetName (by decide),
    string_member_coerce (k + 3) .Account (by decide),
    string_member_coerce (k + 2) .Amount (by decide),
    string_member_coerce (k + 1) .Destination (by decide),
    last_member_coerce k .Hash (by decide)]
  simp [skipSpace, Asset.setString, Asset.zero, Asset.coerced]

theorem isEmpty_world (ctx : Stub) (h : ctx.isEmpty) : ctx.world = [] := by
  cases hw : ctx.world with
  | nil => rfl
  | cons e rest =>
    obtain ⟨k, v⟩ := e
    have := (GetState_ok (h k)).2
    rw [hw] at this
    simp [lookupKV] at this

theorem lookupKV_insertKV_present (key value key1 : Bytes) (w : List (Bytes × Bytes))
    (h : lookupKV key1 w ≠ none) : lookupKV key1 (insertKV key value w) ≠ none := by
  by_cases hk : key1 = key
  · subst hk; rw [lookupKV_insertKV_self]; simp
  · rw [lookupKV_insertKV_ne key value key1 w hk]; exact h

theorem GetAssetByCat_ok (tbl : Nat → Nat) (ctx : Stub) (cat : Bytes)
    (hscan : ctx.scanOK) (hdec : ctx.allDecode) :
    (GetAssetByCat tbl ctx cat).1 =
      .ok (((ctx.world.map fun kv => decoded kv.2).filter
        fun a => decide (ToLower tbl a.Category = ToLower tbl cat)).map some) := by
  unfold GetAssetByCat Stub.GetStateByRange
  rw [hscan.1]
  simp only
  rw [GetAssetByCat_loop_ok tbl _ cat ctx.world 0 [] (fun n hn => by simpa using hscan.2 n hn)
    hdec]
  simp

theorem GetAssetByCat_loop_refines (tbl : Nat → Nat) (ctx : Stub) (cat : Bytes)
    (items : List (Bytes × Bytes)) :
    ∀ (pos : Nat) (assets : List (Option Asset)),
      (∀ kv ∈ items, unmarshalAsset kv.2 ≠ .ok none) →
      GetAssetByCat.loop tbl ctx cat pos items (assets.filter (matchesCat tbl cat)) =
        (GetAllAssets.loop ctx pos items assets).map
          fun all => all.filter (matchesCat tbl cat) := by
  induction items with
  | nil => intro pos assets _; rfl
  | cons kv rest ih =>
    intro pos assets hnil
    have hrest : ∀ kv1 ∈ rest, unmarshalAsset kv1.2 ≠ .ok none :=
      fun kv1 h1 => hnil kv1 (by simp [h1])
    rw [GetAssetByCat.loop, GetAllAssets.loop]
    cases hn : ctx.nextErr pos with
    | some e => rfl
    | none =>
      simp only
      cases hu : unmarshalAsset kv.2 with
      | error e => rfl
      | ok p =>
        cases p with
        | none => exact absurd hu (hnil kv (by simp))
        | some a =>
          simp only
          rw [← ih (pos + 1) (assets ++ [some a]) hrest]
          by_cases hm : ToLower tbl a.Category = ToLower tbl cat
          · simp [hm, List.filter_append, matchesCat]
          · simp [hm, List.filter_append, matchesCat]

/-- On a ledger none of whose entries decodes to the nil pointer, `GetAssetByCat(cat)` fails
exactly when `GetAllAssets` fails, with the same error, and otherwise returns the result of
`GetAllAssets` filtered, in order, by the category test. -/
theorem GetAssetByCat_refines (tbl : Nat → Nat) (ctx : Stub) (cat : Bytes)
    (hnil : ∀ kv ∈ ctx.world, unmarshalAsset kv.2 ≠ .ok none) :
    (GetAssetByCat tbl ctx cat).1 =
      (GetAllAssets ctx).1.map fun all => all.filter (matchesCat tbl cat) := by
  unfold GetAssetByCat GetAllAssets Stub.GetStateByRange
  cases ctx.rangeErr with
  | some e => rfl
  | none => exact GetAssetByCat_loop_refines tbl _ cat ctx.world 0 [] hnil

theorem GetAllAssets_loop_corrupt (ctx : Stub) (items : List (Bytes × Bytes)) :
    ∀ (pos : Nat) (assets : List (Option Asset)),
      (∀ n, n < items.length → ctx.nextErr (pos + n) = none) →
      (∀ kv ∈ items, unmarshalAsset kv.2 ≠ .ok none) →
      (∃ kv ∈ items, decodes kv.2 = false) →
      ∃ e, GetAllAssets.loop ctx pos items assets = .error (.json e) := by
  induction items with
  | nil => intro pos assets _ _ h; simp at h
  | cons kv rest ih =>
    intro pos assets hn hnil hbad
    have h0 : ctx.nextErr pos = none := by simpa using hn 0 (by simp)
    rw [GetAllAssets.loop]
    simp only [h0]
    cases hu : unmarshalAsset kv.2 with
    | error e => exact ⟨e, rfl⟩
    | ok p =>
      cases p with
      | none => exact absurd hu (hnil kv (by simp))
      | some a =>
        simp only
        apply ih (pos + 1) _
          (fun n hlt => by
            have := hn (n + 1) (by simp; omega)
            rwa [show pos + 1 + n = pos + (n + 1) by omega])
          (fun kv1 h1 => hnil kv1 (by simp [h1]))
        obtain ⟨kv1, hmem, hd⟩ := hbad
        rcases List.mem_cons.1 hmem with h | h
        · subst h; simp [decodes, hu] at hd
        · exact ⟨kv1, h, hd⟩

/-- On a ledger whose range scan delivers its entries and none of whose entries decodes to
the nil pointer, one entry on which `json.Unmarshal` fails makes both `GetAllAssets` and
`GetAssetByCat` fail with the error of `json.Unmarshal`. -/
theorem corrupt_entry_aborts (tbl : Nat → Nat) (ctx : Stub) (cat : Bytes)
    (hscan : ctx.scanOK) (hnil : ∀ kv ∈ ctx.world, unmarshalAsset kv.2 ≠ .ok none)
    (hbad : ∃ kv ∈ ctx.world, decodes kv.2 = false) :
    ∃ e, (GetAllAssets ctx).1 = .error (.json e) ∧
      (GetAssetByCat tbl ctx cat).1 = .error (.json e) := by
  have h : ∃ e, (GetAllAssets ctx).1 = .error (.json e) := by
    unfold GetAllAssets Stub.GetStateByRange
    rw [hscan.1]
    exact GetAllAssets_loop_corrupt _ ctx.world 0 []
      (fun n hn => by simpa using hscan.2 n hn) hnil hbad
  obtain ⟨e, he⟩ := h
  exact ⟨e, he, by rw [GetAssetByCat_refines tbl ctx cat hnil, he]; rfl⟩

theorem GetAssetByCat_loop_congr (tbl : Nat → Nat) (ctx : Stub) (cat1 cat2 : Bytes)
    (h : ToLower tbl cat1 = ToLower tbl cat2) (items : List (Bytes × Bytes)) :
    ∀ (pos : Nat) (assets : List (Option Asset)),
      GetAssetByCat.loop tbl ctx cat1 pos items assets =
        GetAssetByCat.loop tbl ctx cat2 pos items assets := by
  induction items with
  | nil => intro pos assets; rfl
  | cons kv rest ih =>
    intro pos assets
    rw [GetAssetByCat.loop, GetAssetByCat.loop]
    cases ctx.nextErr pos with
    | some e => rfl
    | none =>
      simp only
      cases unmarshalAsset kv.2 with
      | error e => rfl
      | ok p =>
        cases p with
        | none => rfl
        | some a => simp only [h, ih]

/-- Two filters with the same lower-cased form, such as two that differ only in letter case,
give the same result on every ledger. -/
theorem GetAssetByCat_congr (tbl : Nat → Nat) (ctx : Stub) (cat1 cat2 : Bytes)
    (h : ToLower tbl cat1 = ToLower tbl cat2) :
    GetAssetByCat tbl ctx cat1 = GetAssetByCat tbl ctx cat2 := by
  unfold GetAssetByCat
  cases ctx.GetStateByRange with
  | mk r ctx1 =>
    cases r with
    | error e => rfl
    | ok it => simp only [GetAssetByCat_loop_congr tbl ctx1 cat1 cat2 h]

theorem lookupKV_mem (key value : Bytes) (w : List (Bytes × Bytes))
    (h : lookupKV key w = some value) : (key, value) ∈ w := by
  induction w with
  | nil => simp [lookupKV] at h
  | cons e rest ih =>
    obtain ⟨k, v⟩ := e
    unfold lookupKV at h
    split_ifs at h with hk
    · simp only [Option.some.injEq] at h
      subst hk; subst h
      exact List.mem_cons_self _ _
    · exact List.mem_cons_of_mem _ (ih h)

theorem CreateAsset_world (ctx : Stub) (id issueID issueName owner : Bytes)
    (appraisedValue : Int) (cat assetName : Bytes) :
    (CreateAsset ctx id issueID issueName owner appraisedValue cat assetName).2 = ctx ∨
    (CreateAsset ctx id issueID issueName owner appraisedValue cat assetName).2 =
      { ctx with
        world := insertKV id
          (marshalAsset (issued id issueID issueName owner appraisedValue cat assetName))
          ctx.world } := by
  unfold CreateAsset
  cases AssetExists ctx id with
  | error e1 => left; rfl
  | ok b =>
    cases b with
    | true => left; rfl
    | false =>
      simp only [Marshal]
      cases hP : ctx.putErr id (marshalAsset
          { ID := id, Issuerid := issueID, IssuerName := issueName, Owner := owner,
            Value := appraisedValue, State := ascii "Issued", Category := cat,
            AssetName := assetName, Account := [], Amount := [], Destination := [],
            Hash := [] }) with
      | none => right; simp [Stub.PutState, hP, issued]
      | some e2 => left; simp [Stub.PutState, hP]

theorem TransferAsset_world (ctx : Stub) (id newOwner amount account destination hash : Bytes) :
    (TransferAsset ctx id newOwner amount account destination hash).2 = ctx ∨
    ∃ stored asset0, ctx.GetState id = .ok (some stored) ∧
      unmarshalAsset stored = .ok (some asset0) ∧
      (TransferAsset ctx id newOwner amount account destination hash).2 =
        { ctx with
          world := insertKV id
            (marshalAsset (transferred asset0 newOwner amount account destination hash))
            ctx.world } := by
  unfold TransferAsset ReadAsset
  cases hG : ctx.GetState id with
  | error e1 => left; rfl
  | ok r =>
    cases r with
    | none => left; rfl
    | some stored =>
      simp only
      cases hU : unmarshalAsset stored with
      | error e2 => left; rfl
      | ok p =>
        cases p with
        | none => left; rfl
        | some asset0 =>
          simp only [Marshal]
          cases hP : ctx.putErr id (marshalAsset
              { asset0 with Owner := newOwner, Amount := amount, Account := account,
                            Destination := destination, Hash := hash }) with
          | none =>
            right
            exact ⟨stored, asset0, rfl, hU, by simp [Stub.PutState, hP, transferred]⟩
          | some e3 => left; simp [Stub.PutState, hP]

/-- The invariant of the reachable ledgers: keys strictly ascending, and every stored value
decodes to a record whose `ID` is the key, which is not empty. -/
theorem Reachable_invariant (ctx : Stub) (h : Reachable ctx) :
    ctx.WF ∧ ∀ kv ∈ ctx.world, ∃ a, unmarshalAsset kv.2 = .ok (some a) ∧ a.ID ≠ [] ∧
      a.ID = kv.1 := by
  induction h with
  | empty ctx h =>
    have hw := isEmpty_world ctx h
    constructor
    · unfold Stub.WF; rw [hw]; exact List.Pairwise.nil
    · intro kv hkv; rw [hw] at hkv; simp at hkv
  | create ctx id issueID issueName owner appraisedValue cat assetName _ hid hutf hvalue ih =>
    rcases CreateAsset_world ctx id issueID issueName owner appraisedValue cat assetName with
      he | he
    · rw [he]; exact ih
    · rw [he]
      refine ⟨insertKV_pairwise _ _ _ ih.1, fun kv hkv => ?_⟩
      rcases insertKV_keys _ _ _ kv hkv with hkv | hkv
      · subst hkv
        refine ⟨_, unmarshal_marshal_coerced _ hvalue, ?_, ?_⟩
        · simp only [Asset.coerced, issued, coerceUTF8_valid id hutf]; exact hid
        · simp only [Asset.coerced, issued, coerceUTF8_valid id hutf]
      · exact ih.2 kv hkv
  | transfer ctx id newOwner amount account destination hash _ ih =>
    rcases TransferAsset_world ctx id newOwner amount account destination hash with
      he | ⟨stored, asset0, hs, hd, he⟩
    · rw [he]; exact ih
    · rw [he]
      refine ⟨insertKV_pairwise _ _ _ ih.1, fun kv hkv => ?_⟩
      rcases insertKV_keys _ _ _ kv hkv with hkv | hkv
      · subst hkv
        obtain ⟨a, ha, hne, hid⟩ := ih.2 (id, stored) (lookupKV_mem _ _ _ (GetState_ok hs).2)
        simp only at ha hid
        rw [hd] at ha
        simp only [Except.ok.injEq, Option.some.injEq] at ha
        subst ha
        have hwf := unmarshalAsset_wellFormed hd
        refine ⟨_, unmarshal_marshal_coerced _ hwf.2.2.2.2.1, ?_, ?_⟩
        · simp only [Asset.coerced, transferred, coerceUTF8_valid _ hwf.1]; exact hne
        · simp only [Asset.coerced, transferred, coerceUTF8_valid _ hwf.1]; exact hid
      · exact ih.2 kv hkv

theorem keyLt_ne {a b : Bytes} (h : keyLt a b = true) : a ≠ b := by
  intro e
  rw [e, keyLt_irrefl] at h
  simp at h

theorem insertKV_insertKV (key v1 v2 : Bytes) (w : List (Bytes × Bytes)) :
    insertKV key v2 (insertKV key v1 w) = insertKV key v2 w := by
  induction w with
  | nil => simp [insertKV]
  | cons e rest ih =>
    obtain ⟨k, v⟩ := e
    by_cases h1 : key = k
    · simp [insertKV, h1]
    · by_cases h2 : keyLt key k = true
      · simp [insertKV, h1, h2]
      · simp [insertKV, h1, h2, ih]

theorem TransferAsset_eval (ctx : Stub) (id newOwner amount account destination hash : Bytes)
    (stored : Bytes) (a : Asset)
    (hstored : ctx.GetState id = .ok (some stored))
    (hdec : unmarshalAsset stored = .ok (some a)) :
    TransferAsset ctx id newOwner amount account destination hash =
      match ctx.putErr id
        (marshalAsset (transferred a newOwner amount account destination hash)) with
      | some e => (.error (.ledger e), ctx)
      | none =>
        (.ok (),
         { ctx with
           world := insertKV id
             (marshalAsset (transferred a newOwner amount account destination hash))
             ctx.world }) := by
  simp only [TransferAsset, ReadAsset_stored ctx id stored a hstored hdec, Marshal,
    Stub.PutState, transferred]
  cases ctx.putErr id (marshalAsset
      { a with Owner := newOwner, Amount := amount, Account := account,
               Destination := destination, Hash := hash }) <;> rfl

theorem transferred_coerced (a : Asset) (ha : a.wellFormed)
    (o1 am1 ac1 d1 h1 o2 am2 ac2 d2 h2 : Bytes) :
    transferred (transferred a o1 am1 ac1 d1 h1).coerced o2 am2 ac2 d2 h2 =
      transferred a o2 am2 ac2 d2 h2 := by
  obtain ⟨e1, e2, e3, _, _, e6, e7, e8, _, _, _, _⟩ := ha
  simp [transferred, Asset.coerced, coerceUTF8_valid, e1, e2, e3, e6, e7, e8]

/-- The second of two transfers of the same asset, the put of the first having succeeded. -/
theorem TransferAsset_after (ctx : Stub) (id : Bytes) (stored : Bytes) (a : Asset)
    (o1 am1 ac1 d1 h1 o2 am2 ac2 d2 h2 : Bytes)
    (hstored : ctx.GetState id = .ok (some stored))
    (hdec : unmarshalAsset stored = .ok (some a))
    (hput : ctx.putErr id (marshalAsset (transferred a o1 am1 ac1 d1 h1)) = none) :
    TransferAsset (TransferAsset ctx id o1 am1 ac1 d1 h1).2 id o2 am2 ac2 d2 h2 =
      match ctx.putErr id (marshalAsset (transferred a o2 am2 ac2 d2 h2)) with
      | some e =>
        (.error (.ledger e),
         { ctx with
           world := insertKV id (marshalAsset (transferred a o1 am1 ac1 d1 h1)) ctx.world })
      | none =>
        (.ok (),
         { ctx with
           world := insertKV id (marshalAsset (transferred a o2 am2 ac2 d2 h2)) ctx.world }) := by
  have hwf := unmarshalAsset_wellFormed hdec
  rw [TransferAsset_eval ctx id o1 am1 ac1 d1 h1 stored a hstored hdec, hput]
  simp only
  have hnext := TransferAsset_eval
    { ctx with
      world := insertKV id (marshalAsset (transferred a o1 am1 ac1 d1 h1)) ctx.world }
    id o2 am2 ac2 d2 h2 (marshalAsset (transferred a o1 am1 ac1 d1 h1))
    (transferred a o1 am1 ac1 d1 h1).coerced
    (GetState_after_put ctx id _ (GetState_ok hstored).1)
    (unmarshal_marshal_coerced _ hwf.2.2.2.2.1)
  rw [transferred_coerced a hwf] at hnext
  rw [hnext]
  simp only [insertKV_insertKV]

/-! ## The claims -/

/-- C1 (as amended): on a ledger in which key `id` is absent and on which the get and the
put under `id` succeed, for all inputs whose strings are valid UTF-8 (the value being a Go
`int`), `CreateAsset` succeeds and a following `ReadAsset(id)` returns the asset with exactly
the given `ID`, `Issuerid`, `IssuerName`, `Owner`, `Value`, `Category`, `AssetName`, with
`State = "Issued"` and `Account`, `Amount`, `Destination`, `Hash` empty. -/
theorem create_then_read (ctx : Stub) (id issueID issueName owner : Bytes)
    (appraisedValue : Int) (cat assetName : Bytes)
    (habsent : ctx.GetState id = .ok none)
    (hput : ∀ value, ctx.putErr id value = none)
    (hid : validUTF8 id = true) (hissueID : validUTF8 issueID = true)
    (hissueName : validUTF8 issueName = true) (howner : validUTF8 owner = true)
    (hvalue : inInt64 appraisedValue) (hcat : validUTF8 cat = true)
    (hassetName : validUTF8 assetName = true) :
    (CreateAsset ctx id issueID issueName owner appraisedValue cat assetName).1 = .ok () ∧
    ReadAsset (CreateAsset ctx id issueID issueName owner appraisedValue cat assetName).2 id =
      .ok (some { ID := id, Issuerid := issueID, IssuerName := issueName, Owner := owner,
                  Value := appraisedValue, State := ascii "Issued", Category := cat,
                  AssetName := assetName, Account := [], Amount := [], Destination := [],
                  Hash := [] }) := by
  rw [CreateAsset_absent ctx id issueID issueName owner appraisedValue cat assetName habsent hput]
  refine ⟨rfl, ?_⟩
  apply ReadAsset_stored _ _ _ _ (GetState_after_put ctx id _ (GetState_ok habsent).1)
  apply unmarshal_marshal
  have hs : validUTF8 (ascii "Issued") = true := by decide
  have he : validUTF8 [] = true := by decide
  exact ⟨hid, hissueID, hissueName, howner, hvalue, hs, hcat, hassetName, he, he, he, he⟩

set_option maxRecDepth 1000000 in
/-- Witness C1: creating `asset1` on the empty healthy ledger and reading it back. -/
theorem create_then_read_witness :
    (CreateAsset (Stub.healthy []) (ascii "asset1") (ascii "Axis7051") (ascii "Axis")
      (ascii "Axis") 500 (ascii "Machines") (ascii "lathe")).1 = .ok () ∧
    ReadAsset (CreateAsset (Stub.healthy []) (ascii "asset1") (ascii "Axis7051") (ascii "Axis")
      (ascii "Axis") 500 (ascii "Machines") (ascii "lathe")).2 (ascii "asset1") =
      .ok (some { ID := ascii "asset1", Issuerid := ascii "Axis7051", IssuerName := ascii "Axis",
                  Owner := ascii "Axis", Value := 500, State := ascii "Issued",
                  Category := ascii "Machines", AssetName := ascii "lathe", Account := [],
                  Amount := [], Destination := [], Hash := [] }) :=
  create_then_read (Stub.healthy []) (ascii "asset1") (ascii "Axis7051") (ascii "Axis")
    (ascii "Axis") 500 (ascii "Machines") (ascii "lathe") rfl (fun _ => rfl)
    (by decide) (by decide) (by decide) (by decide) (by decide) (by decide) (by decide)

set_option maxRecDepth 1000000 in
/-- Counterexample C1: with the owner a single byte `0xFF` (not valid UTF-8), on the empty
healthy ledger, `CreateAsset` succeeds and `ReadAsset` returns an asset whose `Owner` is
the three bytes of U+FFFD, not the owner that was supplied. -/
theorem create_then_read_counterexample :
    (Stub.healthy []).GetState (ascii "asset1") = .ok none ∧
    (CreateAsset (Stub.healthy []) (ascii "asset1") (ascii "Axis7051") (ascii "Axis")
      [0xFF] 500 (ascii "Machines") (ascii "lathe")).1 = .ok () ∧
    ReadAsset (CreateAsset (Stub.healthy []) (ascii "asset1") (ascii "Axis7051") (ascii "Axis")
      [0xFF] 500 (ascii "Machines") (ascii "lathe")).2 (ascii "asset1") =
      .ok (some { ID := ascii "asset1", Issuerid := ascii "Axis7051", IssuerName := ascii "Axis",
                  Owner := [0xEF, 0xBF, 0xBD], Value := 500, State := ascii "Issued",
                  Category := ascii "Machines", AssetName := ascii "lathe", Account := [],
                  Amount := [], Destination := [], Hash := [] }) ∧
    ReadAsset (CreateAsset (Stub.healthy []) (ascii "asset1") (ascii "Axis7051") (ascii "Axis")
      [0xFF] 500 (ascii "Machines") (ascii "lathe")).2 (ascii "asset1") ≠
      .ok (some { ID := ascii "asset1", Issuerid := ascii "Axis7051", IssuerName := ascii "Axis",
                  Owner := [0xFF], Value := 500, State := ascii "Issued",
                  Category := ascii "Machines", AssetName := ascii "lathe", Account := [],
                  Amount := [], Destination := [], Hash := [] }) := by
  decide

/-- C2: on every ledger in which a record is already stored under `id` (the get on `id`
answers with a value), `CreateAsset(id, ...)` with any other arguments fails with the
already-exists error and writes nothing: the ledger afterwards is the ledger before, and the
record stored under `id` is unchanged. -/
theorem create_existing_rejected (ctx : Stub) (stored : Bytes)
    (id issueID issueName owner : Bytes) (appraisedValue : Int) (cat assetName : Bytes)
    (hstored : ctx.GetState id = .ok (some stored)) :
    (CreateAsset ctx id issueID issueName owner appraisedValue cat assetName).1 =
      .error (.alreadyExists id) ∧
    (CreateAsset ctx id issueID issueName owner appraisedValue cat assetName).2 = ctx ∧
    (CreateAsset ctx id issueID issueName owner appraisedValue cat assetName).2.GetState id =
      .ok (some stored) := by
  have h : CreateAsset ctx id issueID issueName owner appraisedValue cat assetName =
      (.error (.alreadyExists id), ctx) := by
    simp [CreateAsset, AssetExists, hstored]
  rw [h]
  exact ⟨rfl, rfl, hstored⟩

set_option maxRecDepth 1000000 in
/-- Witness C2: `CreateAsset` twice with the same id on the empty healthy ledger; the second
call, with other arguments, is rejected and leaves the record of the first call stored. -/
theorem create_existing_rejected_witness :
    (CreateAsset (Stub.healthy []) (ascii "asset1") (ascii "Axis7051") (ascii "Axis")
      (ascii "Axis") 500 (ascii "Machines") (ascii "lathe")).2.GetState (ascii "asset1") =
      .ok (some (marshalAsset (issued (ascii "asset1") (ascii "Axis7051") (ascii "Axis")
        (ascii "Axis") 500 (ascii "Machines") (ascii "lathe")))) ∧
    (CreateAsset
      (CreateAsset (Stub.healthy []) (ascii "asset1") (ascii "Axis7051") (ascii "Axis")
        (ascii "Axis") 500 (ascii "Machines") (ascii "lathe")).2
      (ascii "asset1") (ascii "Hdfc8051") (ascii "Hdfc") (ascii "Hdfc") 900
      (ascii "Furniture") (ascii "desk")).1 = .error (.alreadyExists (ascii "asset1")) ∧
    (CreateAsset
      (CreateAsset (Stub.healthy []) (ascii "asset1") (ascii "Axis7051") (ascii "Axis")
        (ascii "Axis") 500 (ascii "Machines") (ascii "lathe")).2
      (ascii "asset1") (ascii "Hdfc8051") (ascii "Hdfc") (ascii "Hdfc") 900
      (ascii "Furniture") (ascii "desk")).2 =
      (CreateAsset (Stub.healthy []) (ascii "asset1") (ascii "Axis7051") (ascii "Axis")
        (ascii "Axis") 500 (ascii "Machines") (ascii "lathe")).2 ∧
    (CreateAsset
      (CreateAsset (Stub.healthy []) (ascii "asset1") (ascii "Axis7051") (ascii "Axis")
        (ascii "Axis") 500 (ascii "Machines") (ascii "lathe")).2
      (ascii "asset1") (ascii "Hdfc8051") (ascii "Hdfc") (ascii "Hdfc") 900
      (ascii "Furniture") (ascii "desk")).2.GetState (ascii "asset1") =
      .ok (some (marshalAsset (issued (ascii "asset1") (ascii "Axis7051") (ascii "Axis")
        (ascii "Axis") 500 (ascii "Machines") (ascii "lathe")))) :=
  have h : (CreateAsset (Stub.healthy []) (ascii "asset1") (ascii "Axis7051") (ascii "Axis")
      (ascii "Axis") 500 (ascii "Machines") (ascii "lathe")).2.GetState (ascii "asset1") =
      .ok (some (marshalAsset (issued (ascii "asset1") (ascii "Axis7051") (ascii "Axis")
        (ascii "Axis") 500 (ascii "Machines") (ascii "lathe")))) := by decide
  ⟨h, create_existing_rejected _ _ (ascii "asset1") (ascii "Hdfc8051") (ascii "Hdfc")
    (ascii "Hdfc") 900 (ascii "Furniture") (ascii "desk") h⟩

/-- C3 (as amended): on a ledger that holds a decodable asset `a` under `id` and on which the
put under `id` succeeds, for all `newOwner, amount, account, destination, hash` that are valid
UTF-8, `TransferAsset` succeeds and a following `ReadAsset(id)` returns an asset whose
`Owner, Amount, Account, Destination, Hash` are the supplied values and whose `ID, Issuerid,
IssuerName, Value, State, Category, AssetName` are those of `a`. -/
theorem transfer_then_read (ctx : Stub) (id newOwner amount account destination hash : Bytes)
    (stored : Bytes) (a : Asset)
    (hstored : ctx.GetState id = .ok (some stored))
    (hdec : unmarshalAsset stored = .ok (some a))
    (hput : ∀ value, ctx.putErr id value = none)
    (hnewOwner : validUTF8 newOwner = true) (hamount : validUTF8 amount = true)
    (haccount : validUTF8 account = true) (hdestination : validUTF8 destination = true)
    (hhash : validUTF8 hash = true) :
    (TransferAsset ctx id newOwner amount account destination hash).1 = .ok () ∧
    ∃ b, ReadAsset (TransferAsset ctx id newOwner amount account destination hash).2 id =
        .ok (some b) ∧
      b.Owner = newOwner ∧ b.Amount = amount ∧ b.Account = account ∧
      b.Destination = destination ∧ b.Hash = hash ∧
      b.ID = a.ID ∧ b.Issuerid = a.Issuerid ∧ b.IssuerName = a.IssuerName ∧
      b.Value = a.Value ∧ b.State = a.State ∧ b.Category = a.Category ∧
      b.AssetName = a.AssetName := by
  rw [TransferAsset_stored ctx id newOwner amount account destination hash stored a hstored
    hdec hput]
  refine ⟨rfl, transferred a newOwner amount account destination hash, ?_, rfl, rfl, rfl, rfl,
    rfl, rfl, rfl, rfl, rfl, rfl, rfl, rfl⟩
  apply ReadAsset_stored _ _ _ _ (GetState_after_put ctx id _ (GetState_ok hstored).1)
  apply unmarshal_marshal
  obtain ⟨h1, h2, h3, _, h5, h6, h7, h8, _, _, _, _⟩ := unmarshalAsset_wellFormed hdec
  exact ⟨h1, h2, h3, hnewOwner, h5, h6, h7, h8, haccount, hamount, hdestination, hhash⟩

set_option maxRecDepth 1000000 in
/-- Witness C3: the transfer of the specification's example on a ledger that holds
`asset1`. -/
theorem transfer_then_read_witness :
    (TransferAsset (Stub.healthy [(ascii "asset1", marshalAsset asset1)]) (ascii "asset1")
      (ascii "owner2") (ascii "50") (ascii "acctA") (ascii "dest1") (ascii "hash1")).1 = .ok () ∧
    ∃ b, ReadAsset (TransferAsset (Stub.healthy [(ascii "asset1", marshalAsset asset1)])
        (ascii "asset1") (ascii "owner2") (ascii "50") (ascii "acctA") (ascii "dest1")
        (ascii "hash1")).2 (ascii "asset1") = .ok (some b) ∧
      b.Owner = ascii "owner2" ∧ b.Amount = ascii "50" ∧ b.Account = ascii "acctA" ∧
      b.Destination = ascii "dest1" ∧ b.Hash = ascii "hash1" ∧
      b.ID = asset1.ID ∧ b.Issuerid = asset1.Issuerid ∧ b.IssuerName = asset1.IssuerName ∧
      b.Value = asset1.Value ∧ b.State = asset1.State ∧ b.Category = asset1.Category ∧
      b.AssetName = asset1.AssetName :=
  transfer_then_read (Stub.healthy [(ascii "asset1", marshalAsset asset1)]) (ascii "asset1")
    (ascii "owner2") (ascii "50") (ascii "acctA") (ascii "dest1") (ascii "hash1")
    (marshalAsset asset1) asset1 (by decide) (by decide) (fun _ => rfl)
    (by decide) (by decide) (by decide) (by decide) (by decide)

set_option maxRecDepth 1000000 in
/-- Counterexample C3: (1) on the healthy ledger holding `asset1`, a transfer whose new owner
is the single byte `0xFF` succeeds, and the asset read back has the three bytes of U+FFFD as
`Owner`, not the supplied value; (2) on the ledger that holds `asset1` and refuses every put,
`TransferAsset` does not succeed: it returns the ledger's error. -/
theorem transfer_then_read_counterexample :
    ((Stub.healthy [(ascii "asset1", marshalAsset asset1)]).GetState (ascii "asset1") =
        .ok (some (marshalAsset asset1)) ∧
      unmarshalAsset (marshalAsset asset1) = .ok (some asset1) ∧
      (TransferAsset (Stub.healthy [(ascii "asset1", marshalAsset asset1)]) (ascii "asset1")
        [0xFF] (ascii "50") (ascii "acctA") (ascii "dest1") (ascii "hash1")).1 = .ok () ∧
      ReadAsset (TransferAsset (Stub.healthy [(ascii "asset1", marshalAsset asset1)])
        (ascii "asset1") [0xFF] (ascii "50") (ascii "acctA") (ascii "dest1")
        (ascii "hash1")).2 (ascii "asset1") =
        .ok (some (transferred asset1 [0xEF, 0xBF, 0xBD] (ascii "50") (ascii "acctA")
          (ascii "dest1") (ascii "hash1"))) ∧
      ReadAsset (TransferAsset (Stub.healthy [(ascii "asset1", marshalAsset asset1)])
        (ascii "asset1") [0xFF] (ascii "50") (ascii "acctA") (ascii "dest1")
        (ascii "hash1")).2 (ascii "asset1") ≠
        .ok (some (transferred asset1 [0xFF] (ascii "50") (ascii "acctA")
          (ascii "dest1") (ascii "hash1")))) ∧
    (refusingLedger.GetState (ascii "asset1") = .ok (some (marshalAsset asset1)) ∧
      (TransferAsset refusingLedger (ascii "asset1") (ascii "owner2") (ascii "50")
        (ascii "acctA") (ascii "dest1") (ascii "hash1")).1 =
        .error (.ledger "write refused")) := by
  decide

/-- C4: on every ledger in which no record is stored under `id` (the get on `id` answers
"absent"), `TransferAsset(id, ...)` fails with the not-found error, the same error that
`ReadAsset(id)` gives, and writes nothing: the ledger afterwards is the ledger before. -/
theorem transfer_absent_rejected (ctx : Stub)
    (id newOwner amount account destination hash : Bytes)
    (habsent : ctx.GetState id = .ok none) :
    (TransferAsset ctx id newOwner amount account destination hash).1 =
      .error (.doesNotExist id) ∧
    ReadAsset ctx id = .error (.doesNotExist id) ∧
    (TransferAsset ctx id newOwner amount account destination hash).2 = ctx := by
  have hr : ReadAsset ctx id = .error (.doesNotExist id) := by simp [ReadAsset, habsent]
  have h : TransferAsset ctx id newOwner amount account destination hash =
      (.error (.doesNotExist id), ctx) := by
    simp [TransferAsset, hr]
  rw [h]
  exact ⟨rfl, hr, rfl⟩

/-- Witness C4: a transfer of `asset9` on a ledger that holds only `asset1`. -/
theorem transfer_absent_rejected_witness :
    (Stub.healthy [(ascii "asset1", ascii "x")]).GetState (ascii "asset9") = .ok none ∧
    (TransferAsset (Stub.healthy [(ascii "asset1", ascii "x")]) (ascii "asset9")
      (ascii "owner2") (ascii "50") (ascii "acctA") (ascii "dest1") (ascii "hash1")).1 =
      .error (.doesNotExist (ascii "asset9")) ∧
    ReadAsset (Stub.healthy [(ascii "asset1", ascii "x")]) (ascii "asset9") =
      .error (.doesNotExist (ascii "asset9")) ∧
    (TransferAsset (Stub.healthy [(ascii "asset1", ascii "x")]) (ascii "asset9")
      (ascii "owner2") (ascii "50") (ascii "acctA") (ascii "dest1") (ascii "hash1")).2 =
      Stub.healthy [(ascii "asset1", ascii "x")] :=
  ⟨by decide, transfer_absent_rejected _ (ascii "asset9") (ascii "owner2") (ascii "50")
    (ascii "acctA") (ascii "dest1") (ascii "hash1") (by decide)⟩

/-- C5: `AssetExists(id)` returns false, without error, on every ledger reachable from an
empty ledger by invocations none of which is a successful `CreateAsset(id, ...)`; and it
returns true on the ledger that results from a successful `CreateAsset(id, ...)`. -/
theorem exists_iff_created (id : Bytes) (ctx : Stub) (hnever : NeverCreated id ctx)
    (ctx1 : Stub) (issueID issueName owner : Bytes) (appraisedValue : Int)
    (cat assetName : Bytes)
    (hcreate : (CreateAsset ctx1 id issueID issueName owner appraisedValue cat assetName).1 =
      .ok ()) :
    AssetExists ctx id = .ok false ∧
    AssetExists (CreateAsset ctx1 id issueID issueName owner appraisedValue cat assetName).2 id =
      .ok true := by
  constructor
  · simp [AssetExists, NeverCreated_absent id ctx hnever]
  · rcases CreateAsset_cases ctx1 id issueID issueName owner appraisedValue cat assetName with
      ⟨e, he⟩ | ⟨habs, value, hv⟩
    · rw [he] at hcreate; simp at hcreate
    · rw [hv]
      simp [AssetExists, GetState_after_put ctx1 id value (GetState_ok habs).1]

set_option maxRecDepth 1000000 in
/-- Witness C5: after `asset1` was created and transferred on the empty healthy ledger and
all assets were listed, `asset2` does not exist; and `asset2` exists once it is created
there. -/
theorem exists_iff_created_witness :
    AssetExists
      (GetAllAssets
        (TransferAsset
          (CreateAsset (Stub.healthy []) (ascii "asset1") (ascii "Axis7051") (ascii "Axis")
            (ascii "Axis") 500 (ascii "Machines") (ascii "lathe")).2
          (ascii "asset1") (ascii "owner2") (ascii "50") (ascii "acctA") (ascii "dest1")
          (ascii "hash1")).2).2 (ascii "asset2") = .ok false ∧
    AssetExists
      (CreateAsset
        (CreateAsset (Stub.healthy []) (ascii "asset1") (ascii "Axis7051") (ascii "Axis")
          (ascii "Axis") 500 (ascii "Machines") (ascii "lathe")).2
        (ascii "asset2") (ascii "Hdfc8051") (ascii "Hdfc") (ascii "Hdfc") 900
        (ascii "Furniture") (ascii "desk")).2 (ascii "asset2") = .ok true :=
  exists_iff_created (ascii "asset2") _
    (.all _ (.transfer _ _ _ _ _ _ _
      (.create _ _ _ _ _ _ _ _ (.empty (Stub.healthy []) (fun _ => rfl)) (by decide))))
    _ _ _ _ _ _ _ (by decide)

/-- C6 (as amended): on every ledger whose range scan succeeds (the cursor opens and no `Next`
on it fails) and whose entries all decode to asset records, for every category filter `cat`,
`GetAssetByCat(cat)` returns exactly the stored assets whose `Category` equals `cat` when both
sides are lower-cased: the decodings of the entries, in ledger order, filtered by that test,
so that every returned asset matches and every stored asset that matches is returned once. -/
theorem by_category_exact (tbl : Nat → Nat) (ctx : Stub) (cat : Bytes)
    (hscan : ctx.scanOK) (hdec : ctx.allDecode) :
    (GetAssetByCat tbl ctx cat).1 =
      .ok (((ctx.world.map fun kv => decoded kv.2).filter
        fun a => decide (ToLower tbl a.Category = ToLower tbl cat)).map some) ∧
    ∀ kv ∈ ctx.world, unmarshalAsset kv.2 = .ok (some (decoded kv.2)) := by
  refine ⟨?_, fun kv h => decodes_decoded (hdec kv h)⟩
  unfold GetAssetByCat Stub.GetStateByRange
  rw [hscan.1]
  simp only
  rw [GetAssetByCat_loop_ok tbl _ cat ctx.world 0 [] (fun n hn => by simpa using hscan.2 n hn)
    hdec]
  simp

set_option maxRecDepth 1000000 in
/-- Witness C6: on the ledger with assets of categories `Machines`, `machines` and
`Furniture`, filtering on `Machines` returns the first two assets and only them. -/
theorem by_category_exact_witness :
    (GetAssetByCat (fun r => r) mixedLedger (ascii "Machines")).1 =
      .ok [some asset1, some asset2] :=
  (by_category_exact (fun r => r) mixedLedger (ascii "Machines") (by decide) (by decide)).1.trans
    (by decide)

set_option maxRecDepth 1000000 in
/-- Counterexample C6: every entry of `brokenScanLedger` decodes to an asset record (its
entries are those of the ledger with categories `Machines`, `machines` and `Furniture`), yet
`GetAssetByCat("Machines")` does not return the two matching assets: the second `Next` of the
cursor fails and the method returns that error (lines 153-155). -/
theorem by_category_exact_counterexample :
    brokenScanLedger.WF ∧ brokenScanLedger.allDecode ∧
    brokenScanLedger.world = mixedLedger.world ∧
    (GetAssetByCat (fun r => r) mixedLedger (ascii "Machines")).1 =
      .ok [some asset1, some asset2] ∧
    (GetAssetByCat (fun r => r) brokenScanLedger (ascii "Machines")).1 =
      .error (.ledger "scan interrupted") := by
  refine ⟨by decide, by decide, rfl, by decide, by decide⟩

/-- C7 (as amended): on every ledger (a key-value map: its entries are held with distinct keys
in ascending order) whose range scan succeeds (the cursor opens and no `Next` on it fails) and
whose entries all decode to asset records, `GetAllAssets` succeeds and returns exactly one
asset per stored key, namely the decoding of the value stored under that key, listed in the
order of the ledger's entries, which is ascending key order; the result has as many elements
as the ledger has keys. -/
theorem all_assets_exact (ctx : Stub) (hwf : ctx.WF) (hscan : ctx.scanOK)
    (hdec : ctx.allDecode) :
    ∃ assets, (GetAllAssets ctx).1 = .ok assets ∧
      assets.length = ctx.world.length ∧
      List.Forall₂ (fun kv asset => lookupKV kv.1 ctx.world = some kv.2 ∧
        asset ≠ none ∧ unmarshalAsset kv.2 = .ok asset) ctx.world assets ∧
      ctx.world.Pairwise (fun x y => keyLt x.1 y.1 = true) := by
  refine ⟨ctx.world.map fun kv => some (decoded kv.2), ?_, by simp, ?_, hwf⟩
  · unfold GetAllAssets Stub.GetStateByRange
    rw [hscan.1]
    simp only
    rw [GetAllAssets_loop_ok _ ctx.world 0 [] (fun n hn => by simpa using hscan.2 n hn) hdec]
    simp
  · rw [List.forall₂_map_right_iff, List.forall₂_same]
    intro kv h
    exact ⟨lookupKV_of_mem ctx.world hwf kv h, by simp, decodes_decoded (hdec kv h)⟩

set_option maxRecDepth 1000000 in
/-- Witness C7: `GetAllAssets` on the ledger that holds `asset1`, `asset2`, `asset3`. -/
theorem all_assets_exact_witness :
    mixedLedger.WF ∧ mixedLedger.scanOK ∧ mixedLedger.allDecode ∧
    ∃ assets, (GetAllAssets mixedLedger).1 = .ok assets ∧
      assets.length = mixedLedger.world.length ∧
      List.Forall₂ (fun kv asset => lookupKV kv.1 mixedLedger.world = some kv.2 ∧
        asset ≠ none ∧ unmarshalAsset kv.2 = .ok asset) mixedLedger.world assets ∧
      mixedLedger.world.Pairwise (fun x y => keyLt x.1 y.1 = true) :=
  ⟨by decide, by decide, by decide,
    all_assets_exact mixedLedger (by decide) (by decide) (by decide)⟩

set_option maxRecDepth 1000000 in
/-- Counterexample C7: every entry of `brokenScanLedger` decodes to an asset record and its
keys are in ascending order, yet `GetAllAssets` does not succeed: the second `Next` of the
cursor fails and the method returns that error (lines 183-185); and on a ledger whose range
scan does not open, `GetAllAssets` returns the error of `GetStateByRange` (lines 174-176)
although all of its entries (there are none) decode. -/
theorem all_assets_exact_counterexample :
    (brokenScanLedger.WF ∧ brokenScanLedger.allDecode ∧
      (GetAllAssets brokenScanLedger).1 = .error (.ledger "scan interrupted")) ∧
    (refusedScanLedger.WF ∧ refusedScanLedger.allDecode ∧
      (GetAllAssets refusedScanLedger).1 = .error (.ledger "scan refused")) := by
  refine ⟨⟨by decide, by decide, by decide⟩, by decide, by decide, by decide⟩

/-- C8 (as amended): for every asset value whose strings are valid UTF-8 (its `Value` being a
Go `int`), `json.Marshal` succeeds and decoding the bytes it produced succeeds and yields a
record equal to the asset field for field. -/
theorem marshal_roundtrip (a : Asset) (h : a.wellFormed) :
    ∃ data, Marshal a = .ok data ∧ unmarshalAsset data = .ok (some a) :=
  ⟨marshalAsset a, rfl, unmarshal_marshal a h⟩

set_option maxRecDepth 1000000 in
/-- Witness C8: the round trip of `asset1`. -/
theorem marshal_roundtrip_witness :
    asset1.wellFormed ∧
    ∃ data, Marshal asset1 = .ok data ∧ unmarshalAsset data = .ok (some asset1) :=
  ⟨by decide, marshal_roundtrip asset1 (by decide)⟩

set_option maxRecDepth 1000000 in
/-- Counterexample C8: the asset whose `Owner` is the single byte `0xFF` and whose other
fields are zero is marshalled without error, and decoding the result yields a different
record, with the three bytes of U+FFFD as `Owner`. -/
theorem marshal_roundtrip_counterexample :
    Marshal { Asset.zero with Owner := [0xFF] } =
      .ok (marshalAsset { Asset.zero with Owner := [0xFF] }) ∧
    unmarshalAsset (marshalAsset { Asset.zero with Owner := [0xFF] }) =
      .ok (some { Asset.zero with Owner := [0xEF, 0xBF, 0xBD] }) ∧
    unmarshalAsset (marshalAsset { Asset.zero with Owner := [0xFF] }) ≠
      .ok (some { Asset.zero with Owner := [0xFF] }) := by
  decide

/-- C9: no operation partially commits.  For every ledger, whenever a call of `CreateAsset`
or of `TransferAsset` ends in an error, whatever its cause (already exists, not found, ledger
read failure, decode failure, encode failure, ledger write failure, or the panic of a nil
dereference), the ledger afterwards is the ledger before; in particular a failed
`TransferAsset` leaves the value stored under `id` untouched. -/
theorem failed_call_commits_nothing (ctx : Stub) (id issueID issueName owner : Bytes)
    (appraisedValue : Int) (cat assetName : Bytes)
    (newOwner amount account destination hash : Bytes) (e : Error) :
    ((CreateAsset ctx id issueID issueName owner appraisedValue cat assetName).1 = .error e →
      (CreateAsset ctx id issueID issueName owner appraisedValue cat assetName).2 = ctx) ∧
    ((TransferAsset ctx id newOwner amount account destination hash).1 = .error e →
      (TransferAsset ctx id newOwner amount account destination hash).2 = ctx ∧
      (TransferAsset ctx id newOwner amount account destination hash).2.GetState id =
        ctx.GetState id) := by
  refine ⟨CreateAsset_error_unchanged ctx id issueID issueName owner appraisedValue cat
    assetName e, fun h => ?_⟩
  have h2 := TransferAsset_error_unchanged ctx id newOwner amount account destination hash e h
  exact ⟨h2, by rw [h2]⟩

set_option maxRecDepth 1000000 in
/-- Witness C9: on the ledger that holds `asset1` and refuses every put, a second
`CreateAsset` for `asset1` and a `TransferAsset` of `asset1` both fail, and each leaves the
ledger as it was. -/
theorem failed_call_commits_nothing_witness :
    ((CreateAsset refusingLedger (ascii "asset1") (ascii "Hdfc8051") (ascii "Hdfc")
        (ascii "Hdfc") 900 (ascii "Furniture") (ascii "desk")).1 =
        .error (.alreadyExists (ascii "asset1")) ∧
      (CreateAsset refusingLedger (ascii "asset1") (ascii "Hdfc8051") (ascii "Hdfc")
        (ascii "Hdfc") 900 (ascii "Furniture") (ascii "desk")).2 = refusingLedger) ∧
    ((TransferAsset refusingLedger (ascii "asset1") (ascii "owner2") (ascii "50")
        (ascii "acctA") (ascii "dest1") (ascii "hash1")).1 = .error (.ledger "write refused") ∧
      (TransferAsset refusingLedger (ascii "asset1") (ascii "owner2") (ascii "50")
        (ascii "acctA") (ascii "dest1") (ascii "hash1")).2 = refusingLedger ∧
      (TransferAsset refusingLedger (ascii "asset1") (ascii "owner2") (ascii "50")
        (ascii "acctA") (ascii "dest1") (ascii "hash1")).2.GetState (ascii "asset1") =
        refusingLedger.GetState (ascii "asset1")) :=
  have h1 : (CreateAsset refusingLedger (ascii "asset1") (ascii "Hdfc8051") (ascii "Hdfc")
      (ascii "Hdfc") 900 (ascii "Furniture") (ascii "desk")).1 =
      .error (.alreadyExists (ascii "asset1")) := by decide
  have h2 : (TransferAsset refusingLedger (ascii "asset1") (ascii "owner2") (ascii "50")
      (ascii "acctA") (ascii "dest1") (ascii "hash1")).1 = .error (.ledger "write refused") := by
    decide
  ⟨⟨h1, (failed_call_commits_nothing refusingLedger (ascii "asset1") (ascii "Hdfc8051")
      (ascii "Hdfc") (ascii "Hdfc") 900 (ascii "Furniture") (ascii "desk") (ascii "owner2")
      (ascii "50") (ascii "acctA") (ascii "dest1") (ascii "hash1") _).1 h1⟩,
    ⟨h2, (failed_call_commits_nothing refusingLedger (ascii "asset1") (ascii "Hdfc8051")
      (ascii "Hdfc") (ascii "Hdfc") 900 (ascii "Furniture") (ascii "desk") (ascii "owner2")
      (ascii "50") (ascii "acctA") (ascii "dest1") (ascii "hash1") _).2 h2⟩⟩

set_option maxRecDepth 1000000 in
/-- C10 (failing input): on the ledger that holds the bytes `null` under `asset1`,
`ReadAsset` returns the nil pointer and no error, and `TransferAsset`, which dereferences
what `ReadAsset` returned, panics. -/
theorem read_null_returns_nil :
    ReadAsset (Stub.healthy [(ascii "asset1", ascii "null")]) (ascii "asset1") = .ok none ∧
    (TransferAsset (Stub.healthy [(ascii "asset1", ascii "null")]) (ascii "asset1")
      (ascii "owner2") (ascii "50") (ascii "acctA") (ascii "dest1") (ascii "hash1")).1 =
      .error .nilDereference := by
  decide

set_option maxRecDepth 1000000 in
/-- C11 (failing input): on the ledger whose only entry holds the JSON literal `null`, a value
that does not decode to an asset, `GetAllAssets` returns no error at all but a list with a
nil element, and `GetAssetByCat` panics instead of returning the deserialization
error. -/
theorem null_entry_not_rejected :
    decodes (ascii "null") = false ∧
    (GetAllAssets nullLedger).1 = .ok [none] ∧
    (GetAssetByCat (fun r => r) nullLedger (ascii "Machines")).1 = .error .nilDereference := by
  decide

/-- C12: for every ledger and id on which the ledger get succeeds, `ReadAsset(id)` fails with
the not-found error exactly when `AssetExists(id)` returns false, that is exactly when no
record is stored under `id`, and `AssetExists` does not fail; on every ledger, `AssetExists`
fails only when the ledger get fails, with the error built from the get's error. -/
theorem read_notfound_iff_absent (ctx : Stub) (id : Bytes) :
    (∀ r, ctx.GetState id = .ok r →
      (ReadAsset ctx id = .error (.doesNotExist id) ↔ AssetExists ctx id = .ok false) ∧
      (AssetExists ctx id = .ok false ↔ r = none) ∧
      AssetExists ctx id = .ok r.isSome) ∧
    (∀ e, AssetExists ctx id = .error e →
      ∃ cause, ctx.GetState id = .error cause ∧ e = .readFailed cause) := by
  constructor
  · intro r hr
    cases r with
    | none => simp [ReadAsset, AssetExists, hr]
    | some v =>
      simp only [ReadAsset, AssetExists, hr, Option.isSome_some]
      refine ⟨?_, by simp, trivial⟩
      cases unmarshalAsset v <;> simp
  · intro e he
    unfold AssetExists at he
    cases hg : ctx.GetState id with
    | error cause =>
      rw [hg] at he
      simp only [Except.error.injEq] at he
      exact ⟨cause, rfl, he.symm⟩
    | ok r => rw [hg] at he; simp at he

set_option maxRecDepth 1000000 in
/-- Witness C12: on the healthy ledger holding `asset1`, the absent key `asset9` gives the
not-found error and `false`; on the ledger on which every get fails, `AssetExists` fails with
the read error. -/
theorem read_notfound_iff_absent_witness :
    ((Stub.healthy [(ascii "asset1", marshalAsset asset1)]).GetState (ascii "asset9") =
        .ok none ∧
      ((ReadAsset (Stub.healthy [(ascii "asset1", marshalAsset asset1)]) (ascii "asset9") =
          .error (.doesNotExist (ascii "asset9")) ↔
        AssetExists (Stub.healthy [(ascii "asset1", marshalAsset asset1)]) (ascii "asset9") =
          .ok false) ∧
      (AssetExists (Stub.healthy [(ascii "asset1", marshalAsset asset1)]) (ascii "asset9") =
          .ok false ↔ (none : Option Bytes) = none) ∧
      AssetExists (Stub.healthy [(ascii "asset1", marshalAsset asset1)]) (ascii "asset9") =
        .ok (none : Option Bytes).isSome)) ∧
    (AssetExists unreadableLedger (ascii "asset1") = .error (.readFailed "read refused") ∧
      ∃ cause, unreadableLedger.GetState (ascii "asset1") = .error cause ∧
        Error.readFailed "read refused" = .readFailed cause) :=
  have h1 : (Stub.healthy [(ascii "asset1", marshalAsset asset1)]).GetState (ascii "asset9") =
      .ok none := by decide
  have h2 : AssetExists unreadableLedger (ascii "asset1") =
      .error (.readFailed "read refused") := by decide
  ⟨⟨h1, (read_notfound_iff_absent _ (ascii "asset9")).1 none h1⟩,
    ⟨h2, (read_notfound_iff_absent unreadableLedger (ascii "asset1")).2 _ h2⟩⟩

/-- C13 (as amended): the persisted encoding of every asset is a JSON object with exactly
twelve members whose names are, in order, `ID`, `issuerid`, `issuerName`, `owner`, `value`,
`state`, `category`, `assetName`, `account`, `amount`, `destination`, `hash` (the `json` tags
of the struct, spelled and capitalised exactly so), each carrying the JSON encoding of the
corresponding field of the asset. -/
theorem persisted_shape (a : Asset) :
    Marshal a = .ok (objectOf
      [(ascii "ID", appendString a.ID), (ascii "issuerid", appendString a.Issuerid),
       (ascii "issuerName", appendString a.IssuerName), (ascii "owner", appendString a.Owner),
       (ascii "value", formatInt a.Value), (ascii "state", appendString a.State),
       (ascii "category", appendString a.Category),
       (ascii "assetName", appendString a.AssetName),
       (ascii "account", appendString a.Account), (ascii "amount", appendString a.Amount),
       (ascii "destination", appendString a.Destination),
       (ascii "hash", appendString a.Hash)]) := by
  simp [Marshal, marshalAsset, objectOf, ascii]

set_option maxRecDepth 1000000 in
/-- Counterexample C13: the persisted encoding of `asset1` is not the object whose members
are named `ID`, `Issuerid`, `IssuerName`, `Owner`, `Value`, `State`, `Category`, `AssetName`,
`Account`, `Amount`, `Destination`, `Hash`. -/
theorem persisted_shape_counterexample :
    Marshal asset1 ≠ .ok (objectOf
      [(ascii "ID", appendString asset1.ID), (ascii "Issuerid", appendString asset1.Issuerid),
       (ascii "IssuerName", appendString asset1.IssuerName),
       (ascii "Owner", appendString asset1.Owner),
       (ascii "Value", formatInt asset1.Value), (ascii "State", appendString asset1.State),
       (ascii "Category", appendString asset1.Category),
       (ascii "AssetName", appendString asset1.AssetName),
       (ascii "Account", appendString asset1.Account),
       (ascii "Amount", appendString asset1.Amount),
       (ascii "Destination", appendString asset1.Destination),
       (ascii "Hash", appendString asset1.Hash)]) := by
  decide

/-- C14 (as amended): in every ledger reachable from the empty ledger by any sequence of
`CreateAsset` calls whose id is not empty and is valid UTF-8 and of `TransferAsset` calls,
every stored record decodes to an asset whose `ID` is not empty and equal to the key it is
stored under; consequently no two stored records have the same `ID`, and a further
`TransferAsset` leaves the `ID` of every stored record as it is. -/
theorem stored_id_is_key (ctx : Stub) (hreach : Reachable ctx)
    (id newOwner amount account destination hash : Bytes) :
    (∀ kv ∈ ctx.world, ∃ a, unmarshalAsset kv.2 = .ok (some a) ∧ a.ID ≠ [] ∧ a.ID = kv.1) ∧
    ctx.world.Pairwise (fun x y => (decoded x.2).ID ≠ (decoded y.2).ID) ∧
    (∀ key value, lookupKV key ctx.world = some value →
      ∃ value1,
        lookupKV key (TransferAsset ctx id newOwner amount account destination hash).2.world =
          some value1 ∧
        (decoded value1).ID = (decoded value).ID) := by
  have hinv := Reachable_invariant ctx hreach
  have hdec : ∀ (c : Stub), Reachable c → ∀ kv ∈ c.world, (decoded kv.2).ID = kv.1 := by
    intro c hc kv hkv
    obtain ⟨a, ha, _, hid⟩ := (Reachable_invariant c hc).2 kv hkv
    simp [decoded, ha, hid]
  refine ⟨hinv.2, ?_, ?_⟩
  · refine List.Pairwise.imp_of_mem ?_ hinv.1
    intro x y hx hy hlt
    rw [hdec ctx hreach x hx, hdec ctx hreach y hy]
    exact keyLt_ne hlt
  · intro key value hl
    have hnext : Reachable (TransferAsset ctx id newOwner amount account destination hash).2 :=
      Reachable.transfer ctx id newOwner amount account destination hash hreach
    have hpres : lookupKV key
        (TransferAsset ctx id newOwner amount account destination hash).2.world ≠ none := by
      rcases TransferAsset_world ctx id newOwner amount account destination hash with
        he | ⟨_, _, _, _, he⟩
      · rw [he, hl]; simp
      · rw [he]; exact lookupKV_insertKV_present _ _ _ _ (by rw [hl]; simp)
    obtain ⟨value1, hv1⟩ := Option.ne_none_iff_exists'.1 hpres
    refine ⟨value1, hv1, ?_⟩
    have h1 := hdec _ hnext (key, value1) (lookupKV_mem _ _ _ hv1)
    have h2 := hdec ctx hreach (key, value) (lookupKV_mem _ _ _ hl)
    simp only at h1 h2
    rw [h1, h2]

set_option maxRecDepth 1000000 in
/-- Witness C14: the ledger reached by creating `asset1` on the empty healthy ledger and
transferring it. -/
theorem stored_id_is_key_witness :
    (∀ kv ∈ (TransferAsset (CreateAsset (Stub.healthy []) (ascii "asset1") (ascii "Axis7051")
        (ascii "Axis") (ascii "Axis") 500 (ascii "Machines") (ascii "lathe")).2
        (ascii "asset1") (ascii "owner2") (ascii "50") (ascii "acctA") (ascii "dest1")
        (ascii "hash1")).2.world,
      ∃ a, unmarshalAsset kv.2 = .ok (some a) ∧ a.ID ≠ [] ∧ a.ID = kv.1) ∧
    (TransferAsset (CreateAsset (Stub.healthy []) (ascii "asset1") (ascii "Axis7051")
        (ascii "Axis") (ascii "Axis") 500 (ascii "Machines") (ascii "lathe")).2
        (ascii "asset1") (ascii "owner2") (ascii "50") (ascii "acctA") (ascii "dest1")
        (ascii "hash1")).2.world.Pairwise
      (fun x y => (decoded x.2).ID ≠ (decoded y.2).ID) ∧
    (∀ key value,
      lookupKV key (TransferAsset (CreateAsset (Stub.healthy []) (ascii "asset1")
        (ascii "Axis7051") (ascii "Axis") (ascii "Axis") 500 (ascii "Machines")
        (ascii "lathe")).2 (ascii "asset1") (ascii "owner2") (ascii "50") (ascii "acctA")
        (ascii "dest1") (ascii "hash1")).2.world = some value →
      ∃ value1,
        lookupKV key
          (TransferAsset
            (TransferAsset (CreateAsset (Stub.healthy []) (ascii "asset1") (ascii "Axis7051")
              (ascii "Axis") (ascii "Axis") 500 (ascii "Machines") (ascii "lathe")).2
              (ascii "asset1") (ascii "owner2") (ascii "50") (ascii "acctA") (ascii "dest1")
              (ascii "hash1")).2
            (ascii "asset1") (ascii "owner3") (ascii "70") (ascii "acctB") (ascii "dest2")
            (ascii "hash2")).2.world = some value1 ∧
        (decoded value1).ID = (decoded value).ID) :=
  stored_id_is_key _
    (.transfer _ (ascii "asset1") (ascii "owner2") (ascii "50") (ascii "acctA") (ascii "dest1")
      (ascii "hash1")
      (.create (Stub.healthy []) (ascii "asset1") (ascii "Axis7051") (ascii "Axis")
        (ascii "Axis") 500 (ascii "Machines") (ascii "lathe")
        (.empty (Stub.healthy []) (fun _ => rfl)) (by decide) (by decide) (by decide)))
    (ascii "asset1") (ascii "owner3") (ascii "70") (ascii "acctB") (ascii "dest2")
    (ascii "hash2")

set_option maxRecDepth 1000000 in
/-- Counterexample C14: two `CreateAsset` calls on the empty healthy ledger with the
non-empty ids `0xFF` and `0xFE` (single bytes, not valid UTF-8) both succeed; the two records
are stored under the keys `0xFE` and `0xFF`, and both decode to assets whose `ID` is the three
bytes of U+FFFD: the `ID` is not the key, and two stored records have the same `ID`. -/
theorem stored_id_is_key_counterexample :
    ([0xFF] : Bytes) ≠ [] ∧ ([0xFE] : Bytes) ≠ [] ∧
    (CreateAsset (Stub.healthy []) [0xFF] (ascii "Axis7051") (ascii "Axis") (ascii "Axis") 500
      (ascii "Machines") (ascii "lathe")).1 = .ok () ∧
    (CreateAsset
      (CreateAsset (Stub.healthy []) [0xFF] (ascii "Axis7051") (ascii "Axis") (ascii "Axis") 500
        (ascii "Machines") (ascii "lathe")).2
      [0xFE] (ascii "Hdfc8051") (ascii "Hdfc") (ascii "Hdfc") 900 (ascii "Furniture")
      (ascii "desk")).1 = .ok () ∧
    (CreateAsset
      (CreateAsset (Stub.healthy []) [0xFF] (ascii "Axis7051") (ascii "Axis") (ascii "Axis") 500
        (ascii "Machines") (ascii "lathe")).2
      [0xFE] (ascii "Hdfc8051") (ascii "Hdfc") (ascii "Hdfc") 900 (ascii "Furniture")
      (ascii "desk")).2.world.map (fun kv => (kv.1, decodes kv.2, (decoded kv.2).ID)) =
      [([0xFE], true, [0xEF, 0xBF, 0xBD]), ([0xFF], true, [0xEF, 0xBF, 0xBD])] := by
  decide

/-- C15: a successful `CreateAsset(id, ...)` or `TransferAsset(id, ...)` changes the ledger by
a single put under key `id` and nothing else: the ledger afterwards is the ledger before with
one value put under `id`; for every key other than `id` the stored value, or its absence, is
the same before and after; and no key that was present before is absent after. -/
theorem success_is_single_put (ctx : Stub) (id issueID issueName owner : Bytes)
    (appraisedValue : Int) (cat assetName : Bytes)
    (newOwner amount account destination hash : Bytes) :
    ((CreateAsset ctx id issueID issueName owner appraisedValue cat assetName).1 = .ok () →
      ∃ value,
        ctx.PutState id value =
          (.ok (), (CreateAsset ctx id issueID issueName owner appraisedValue cat assetName).2) ∧
        (∀ key, key ≠ id →
          lookupKV key
              (CreateAsset ctx id issueID issueName owner appraisedValue cat assetName).2.world =
            lookupKV key ctx.world) ∧
        (∀ key, lookupKV key ctx.world ≠ none →
          lookupKV key
              (CreateAsset ctx id issueID issueName owner appraisedValue cat assetName).2.world ≠
            none)) ∧
    ((TransferAsset ctx id newOwner amount account destination hash).1 = .ok () →
      ∃ value,
        ctx.PutState id value =
          (.ok (), (TransferAsset ctx id newOwner amount account destination hash).2) ∧
        (∀ key, key ≠ id →
          lookupKV key (TransferAsset ctx id newOwner amount account destination hash).2.world =
            lookupKV key ctx.world) ∧
        (∀ key, lookupKV key ctx.world ≠ none →
          lookupKV key (TransferAsset ctx id newOwner amount account destination hash).2.world ≠
            none)) := by
  constructor
  · intro h
    unfold CreateAsset at h ⊢
    cases hA : AssetExists ctx id with
    | error e1 => rw [hA] at h; simp at h
    | ok b =>
      cases b with
      | true => rw [hA] at h; simp at h
      | false =>
        simp only [hA, Marshal] at h ⊢
        refine ⟨marshalAsset (issued id issueID issueName owner appraisedValue cat assetName),
          ?_⟩
        cases hP : ctx.putErr id
            (marshalAsset (issued id issueID issueName owner appraisedValue cat assetName)) with
        | some e2 => simp [Stub.PutState, issued] at hP h; simp [hP] at h
        | none =>
          simp only [issued] at hP
          simp only [Stub.PutState, issued, hP, true_and]
          exact ⟨fun key hk => lookupKV_insertKV_ne _ _ _ _ hk,
            fun key hk => lookupKV_insertKV_present _ _ _ _ hk⟩
  · intro h
    unfold TransferAsset at h ⊢
    cases hR : ReadAsset ctx id with
    | error e1 => rw [hR] at h; simp at h
    | ok p =>
      cases p with
      | none => rw [hR] at h; simp at h
      | some asset0 =>
        simp only [hR, Marshal] at h ⊢
        refine ⟨marshalAsset (transferred asset0 newOwner amount account destination hash), ?_⟩
        cases hP : ctx.putErr id
            (marshalAsset (transferred asset0 newOwner amount account destination hash)) with
        | some e2 => simp [Stub.PutState, transferred] at hP h; simp [hP] at h
        | none =>
          simp only [transferred] at hP
          simp only [Stub.PutState, transferred, hP, true_and]
          exact ⟨fun key hk => lookupKV_insertKV_ne _ _ _ _ hk,
            fun key hk => lookupKV_insertKV_present _ _ _ _ hk⟩

set_option maxRecDepth 1000000 in
/-- Witness C15: creating `asset2` on the healthy ledger that holds `asset1`, and
transferring `asset1` there. -/
theorem success_is_single_put_witness :
    ((CreateAsset (Stub.healthy [(ascii "asset1", marshalAsset asset1)]) (ascii "asset2")
        (ascii "Hdfc8051") (ascii "Hdfc") (ascii "Hdfc") 3300 (ascii "machines")
        (ascii "press")).1 = .ok () ∧
      ∃ value,
        (Stub.healthy [(ascii "asset1", marshalAsset asset1)]).PutState (ascii "asset2") value =
          (.ok (), (CreateAsset (Stub.healthy [(ascii "asset1", marshalAsset asset1)])
            (ascii "asset2") (ascii "Hdfc8051") (ascii "Hdfc") (ascii "Hdfc") 3300
            (ascii "machines") (ascii "press")).2) ∧
        (∀ key, key ≠ ascii "asset2" →
          lookupKV key (CreateAsset (Stub.healthy [(ascii "asset1", marshalAsset asset1)])
            (ascii "asset2") (ascii "Hdfc8051") (ascii "Hdfc") (ascii "Hdfc") 3300
            (ascii "machines") (ascii "press")).2.world =
            lookupKV key (Stub.healthy [(ascii "asset1", marshalAsset asset1)]).world) ∧
        (∀ key, lookupKV key (Stub.healthy [(ascii "asset1", marshalAsset asset1)]).world ≠
            none →
          lookupKV key (CreateAsset (Stub.healthy [(ascii "asset1", marshalAsset asset1)])
            (ascii "asset2") (ascii "Hdfc8051") (ascii "Hdfc") (ascii "Hdfc") 3300
            (ascii "machines") (ascii "press")).2.world ≠ none)) ∧
    ((TransferAsset (Stub.healthy [(ascii "asset1", marshalAsset asset1)]) (ascii "asset1")
        (ascii "owner2") (ascii "50") (ascii "acctA") (ascii "dest1") (ascii "hash1")).1 =
        .ok () ∧
      ∃ value,
        (Stub.healthy [(ascii "asset1", marshalAsset asset1)]).PutState (ascii "asset1") value =
          (.ok (), (TransferAsset (Stub.healthy [(ascii "asset1", marshalAsset asset1)])
            (ascii "asset1") (ascii "owner2") (ascii "50") (ascii "acctA") (ascii "dest1")
            (ascii "hash1")).2) ∧
        (∀ key, key ≠ ascii "asset1" →
          lookupKV key (TransferAsset (Stub.healthy [(ascii "asset1", marshalAsset asset1)])
            (ascii "asset1") (ascii "owner2") (ascii "50") (ascii "acctA") (ascii "dest1")
            (ascii "hash1")).2.world =
            lookupKV key (Stub.healthy [(ascii "asset1", marshalAsset asset1)]).world) ∧
        (∀ key, lookupKV key (Stub.healthy [(ascii "asset1", marshalAsset asset1)]).world ≠
            none →
          lookupKV key (TransferAsset (Stub.healthy [(ascii "asset1", marshalAsset asset1)])
            (ascii "asset1") (ascii "owner2") (ascii "50") (ascii "acctA") (ascii "dest1")
            (ascii "hash1")).2.world ≠ none)) :=
  have h1 : (CreateAsset (Stub.healthy [(ascii "asset1", marshalAsset asset1)])
      (ascii "asset2") (ascii "Hdfc8051") (ascii "Hdfc") (ascii "Hdfc") 3300
      (ascii "machines") (ascii "press")).1 = .ok () := by decide
  have h2 : (TransferAsset (Stub.healthy [(ascii "asset1", marshalAsset asset1)])
      (ascii "asset1") (ascii "owner2") (ascii "50") (ascii "acctA") (ascii "dest1")
      (ascii "hash1")).1 = .ok () := by decide
  ⟨⟨h1, (success_is_single_put (Stub.healthy [(ascii "asset1", marshalAsset asset1)])
      (ascii "asset2") (ascii "Hdfc8051") (ascii "Hdfc") (ascii "Hdfc") 3300
      (ascii "machines") (ascii "press") [] [] [] [] []).1 h1⟩,
    ⟨h2, (success_is_single_put (Stub.healthy [(ascii "asset1", marshalAsset asset1)])
      (ascii "asset1") [] [] [] 0 [] [] (ascii "owner2") (ascii "50") (ascii "acctA")
      (ascii "dest1") (ascii "hash1")).2 h2⟩⟩

/-- C16 (as amended): `GetAllAssets` on the empty ledger whose range scan opens returns an
empty sequence and no error; and `GetAssetByCat(cat)` returns an empty sequence and no error
on every ledger whose range scan succeeds (the cursor opens and no `Next` on it fails), whose
entries all decode to asset records and in which no asset's category matches `cat`. -/
theorem nothing_found_is_empty (tbl : Nat → Nat) (ctx ctx0 : Stub) (cat : Bytes) :
    (ctx0.isEmpty → ctx0.scanOK → (GetAllAssets ctx0).1 = .ok []) ∧
    (ctx.scanOK → ctx.allDecode →
      (∀ kv ∈ ctx.world, ToLower tbl (decoded kv.2).Category ≠ ToLower tbl cat) →
      (GetAssetByCat tbl ctx cat).1 = .ok []) := by
  constructor
  · intro he hs
    have hw := isEmpty_world ctx0 he
    simp [GetAllAssets, Stub.GetStateByRange, hs.1, hw, GetAllAssets.loop]
  · intro hs hd hno
    rw [GetAssetByCat_ok tbl ctx cat hs hd]
    simp only [Except.ok.injEq, List.map_eq_nil_iff, List.filter_eq_nil_iff, List.mem_map,
      decide_eq_true_eq, forall_exists_index, and_imp]
    intro a kv hkv ha
    rw [← ha]
    exact hno kv hkv

set_option maxRecDepth 1000000 in
/-- Witness C16: `GetAllAssets` on the empty healthy ledger, and `GetAssetByCat("Vehicles")`
on the ledger with assets of categories `Machines`, `machines` and `Furniture`. -/
theorem nothing_found_is_empty_witness :
    (GetAllAssets (Stub.healthy [])).1 = .ok [] ∧
    (GetAssetByCat (fun r => r) mixedLedger (ascii "Vehicles")).1 = .ok [] :=
  ⟨(nothing_found_is_empty (fun r => r) mixedLedger (Stub.healthy []) (ascii "Vehicles")).1
      (fun _ => rfl) (by decide),
    (nothing_found_is_empty (fun r => r) mixedLedger (Stub.healthy []) (ascii "Vehicles")).2
      (by decide) (by decide) (by decide)⟩

set_option maxRecDepth 1000000 in
/-- Counterexample C16: (1) `refusedScanLedger` is empty, it answers "absent" to every get,
yet `GetAllAssets` returns an error, not an empty sequence, because the range scan does not
open; (2) every entry of `brokenScanLedger` decodes and no category matches `Vehicles`, yet
`GetAssetByCat("Vehicles")` returns the error of the failing `Next`. -/
theorem nothing_found_is_empty_counterexample :
    (refusedScanLedger.isEmpty ∧ refusedScanLedger.world = [] ∧
      (GetAllAssets refusedScanLedger).1 = .error (.ledger "scan refused")) ∧
    (brokenScanLedger.allDecode ∧
      (∀ kv ∈ brokenScanLedger.world,
        ToLower (fun r => r) (decoded kv.2).Category ≠ ToLower (fun r => r) (ascii "Vehicles")) ∧
      (GetAssetByCat (fun r => r) brokenScanLedger (ascii "Vehicles")).1 =
        .error (.ledger "scan interrupted")) := by
  refine ⟨⟨fun _ => rfl, rfl, by decide⟩, by decide, by decide, by decide⟩

/-- C17: a ledger read failure is never treated as "does not exist".  On every ledger and id
on which the ledger get fails, `AssetExists(id)` returns an error, not false, and
`CreateAsset(id, ...)` returns that error and leaves the ledger unchanged: no record is
constructed or written. -/
theorem read_failure_not_absent (ctx : Stub) (id issueID issueName owner : Bytes)
    (appraisedValue : Int) (cat assetName : Bytes) (cause : String)
    (hget : ctx.GetState id = .error cause) :
    AssetExists ctx id = .error (.readFailed cause) ∧
    AssetExists ctx id ≠ .ok false ∧
    (CreateAsset ctx id issueID issueName owner appraisedValue cat assetName).1 =
      .error (.readFailed cause) ∧
    (CreateAsset ctx id issueID issueName owner appraisedValue cat assetName).2 = ctx := by
  have h : AssetExists ctx id = .error (.readFailed cause) := by simp [AssetExists, hget]
  refine ⟨h, by rw [h]; simp, ?_, ?_⟩ <;> simp [CreateAsset, h]

set_option maxRecDepth 1000000 in
/-- Witness C17: `CreateAsset` for a new id on the ledger on which every get fails. -/
theorem read_failure_not_absent_witness :
    unreadableLedger.GetState (ascii "asset2") = .error "read refused" ∧
    AssetExists unreadableLedger (ascii "asset2") = .error (.readFailed "read refused") ∧
    AssetExists unreadableLedger (ascii "asset2") ≠ .ok false ∧
    (CreateAsset unreadableLedger (ascii "asset2") (ascii "Hdfc8051") (ascii "Hdfc")
      (ascii "Hdfc") 900 (ascii "Furniture") (ascii "desk")).1 =
      .error (.readFailed "read refused") ∧
    (CreateAsset unreadableLedger (ascii "asset2") (ascii "Hdfc8051") (ascii "Hdfc")
      (ascii "Hdfc") 900 (ascii "Furniture") (ascii "desk")).2 = unreadableLedger :=
  ⟨by decide, read_failure_not_absent unreadableLedger (ascii "asset2") (ascii "Hdfc8051")
    (ascii "Hdfc") (ascii "Hdfc") 900 (ascii "Furniture") (ascii "desk") "read refused"
    (by decide)⟩

/-- C18: whenever `GetAllAssets` or `GetAssetByCat` obtains a range cursor from the ledger,
that cursor is closed by the time the operation returns, whatever the exit path (normal
completion, a failing `Next`, a value that fails to decode, a panic): the ledger afterwards is
the ledger with the cursor closed, and as many cursors are open as before the call. -/
theorem cursor_closed_on_return (tbl : Nat → Nat) (ctx : Stub) (cat : Bytes)
    (resultsIterator : Iterator) (ctx1 : Stub)
    (hopen : ctx.GetStateByRange = (.ok resultsIterator, ctx1)) :
    ctx1.openIterators = ctx.openIterators + 1 ∧
    (GetAllAssets ctx).2 = ctx1.Close ∧
    (GetAllAssets ctx).2.openIterators = ctx.openIterators ∧
    (GetAssetByCat tbl ctx cat).2 = ctx1.Close ∧
    (GetAssetByCat tbl ctx cat).2.openIterators = ctx.openIterators := by
  have h1 : ctx1.openIterators = ctx.openIterators + 1 := by
    unfold Stub.GetStateByRange at hopen
    cases hr : ctx.rangeErr with
    | some e => rw [hr] at hopen; simp at hopen
    | none =>
      rw [hr] at hopen
      simp only [Prod.mk.injEq, Except.ok.injEq] at hopen
      rw [← hopen.2]
  have h2 : (GetAllAssets ctx).2 = ctx1.Close := by simp [GetAllAssets, hopen]
  have h3 : (GetAssetByCat tbl ctx cat).2 = ctx1.Close := by simp [GetAssetByCat, hopen]
  refine ⟨h1, h2, ?_, h3, ?_⟩
  · rw [h2]; simp [Stub.Close, h1]
  · rw [h3]; simp [Stub.Close, h1]

set_option maxRecDepth 1000000 in
/-- Witness C18: the three exit paths of `GetAllAssets`: normal completion on `mixedLedger`,
a failing `Next` on `brokenScanLedger`, a value that does not decode on `corruptLedger`; in
each case no cursor is left open. -/
theorem cursor_closed_on_return_witness :
    ((GetAllAssets mixedLedger).1 = .ok [some asset1, some asset2, some asset3] ∧
      (GetAllAssets mixedLedger).2.openIterators = mixedLedger.openIterators) ∧
    ((GetAllAssets brokenScanLedger).1 = .error (.ledger "scan interrupted") ∧
      (GetAllAssets brokenScanLedger).2.openIterators = brokenScanLedger.openIterators) ∧
    ((GetAllAssets corruptLedger).1 = .error (.json .malformed) ∧
      (GetAllAssets corruptLedger).2.openIterators = corruptLedger.openIterators) :=
  ⟨⟨by decide, (cursor_closed_on_return (fun r => r) mixedLedger [] _ _ rfl).2.2.1⟩,
    ⟨by decide, (cursor_closed_on_return (fun r => r) brokenScanLedger [] _ _ rfl).2.2.1⟩,
    ⟨by decide, (cursor_closed_on_return (fun r => r) corruptLedger [] _ _ rfl).2.2.1⟩⟩

set_option maxRecDepth 1000000 in
/-- C19 (failing input): on the ledger that holds `asset1` and, under `asset2`, the JSON
literal `null`, `GetAllAssets` succeeds (with a nil second element) while `GetAssetByCat`
does not return at all: it panics on the nil pointer. -/
theorem listing_disagree_on_null :
    (GetAllAssets halfNullLedger).1 = .ok [some asset1, none] ∧
    (GetAssetByCat (fun r => r) halfNullLedger (ascii "Machines")).1 =
      .error .nilDereference := by
  decide

/-- C20 (as amended): the last transfer wins whenever it succeeds on its own.  On every
ledger holding a decodable asset under `id`, for any two argument tuples `t1` and `t2` such
that `TransferAsset(id, t2)` alone succeeds, `TransferAsset(id, t1)` followed by
`TransferAsset(id, t2)` leaves the same ledger, and so the same stored record under `id`, as
`TransferAsset(id, t2)` alone; and, with no condition on the put, repeating the same
`TransferAsset` twice gives the same result and ledger as doing it once. -/
theorem last_transfer_wins (ctx : Stub) (id : Bytes) (stored : Bytes) (a : Asset)
    (o1 am1 ac1 d1 h1 o2 am2 ac2 d2 h2 : Bytes)
    (hstored : ctx.GetState id = .ok (some stored))
    (hdec : unmarshalAsset stored = .ok (some a)) :
    ((TransferAsset ctx id o2 am2 ac2 d2 h2).1 = .ok () →
      (TransferAsset (TransferAsset ctx id o1 am1 ac1 d1 h1).2 id o2 am2 ac2 d2 h2).2 =
        (TransferAsset ctx id o2 am2 ac2 d2 h2).2 ∧
      (TransferAsset (TransferAsset ctx id o1 am1 ac1 d1 h1).2 id o2 am2 ac2 d2 h2).2.GetState
          id = .ok (some (marshalAsset (transferred a o2 am2 ac2 d2 h2))) ∧
      (TransferAsset ctx id o2 am2 ac2 d2 h2).2.GetState id =
        .ok (some (marshalAsset (transferred a o2 am2 ac2 d2 h2)))) ∧
    TransferAsset (TransferAsset ctx id o1 am1 ac1 d1 h1).2 id o1 am1 ac1 d1 h1 =
      TransferAsset ctx id o1 am1 ac1 d1 h1 := by
  have hget := (GetState_ok hstored).1
  constructor
  · intro h2nd
    have e2 := TransferAsset_eval ctx id o2 am2 ac2 d2 h2 stored a hstored hdec
    have hp2 : ctx.putErr id (marshalAsset (transferred a o2 am2 ac2 d2 h2)) = none := by
      cases hp : ctx.putErr id (marshalAsset (transferred a o2 am2 ac2 d2 h2)) with
      | none => rfl
      | some e => rw [e2, hp] at h2nd; simp at h2nd
    rw [hp2] at e2
    have hboth : (TransferAsset (TransferAsset ctx id o1 am1 ac1 d1 h1).2 id o2 am2 ac2 d2
        h2).2 = (TransferAsset ctx id o2 am2 ac2 d2 h2).2 := by
      cases hp1 : ctx.putErr id (marshalAsset (transferred a o1 am1 ac1 d1 h1)) with
      | none =>
        rw [TransferAsset_after ctx id stored a o1 am1 ac1 d1 h1 o2 am2 ac2 d2 h2 hstored hdec
          hp1, hp2, e2]
      | some e =>
        have e1 := TransferAsset_eval ctx id o1 am1 ac1 d1 h1 stored a hstored hdec
        rw [hp1] at e1
        rw [e1]
    refine ⟨hboth, ?_, ?_⟩
    · rw [hboth, e2]; exact GetState_after_put ctx id _ hget
    · rw [e2]; exact GetState_after_put ctx id _ hget
  · cases hp1 : ctx.putErr id (marshalAsset (transferred a o1 am1 ac1 d1 h1)) with
    | none =>
      rw [TransferAsset_after ctx id stored a o1 am1 ac1 d1 h1 o1 am1 ac1 d1 h1 hstored hdec
        hp1, hp1, TransferAsset_eval ctx id o1 am1 ac1 d1 h1 stored a hstored hdec, hp1]
    | some e =>
      have e1 := TransferAsset_eval ctx id o1 am1 ac1 d1 h1 stored a hstored hdec
      rw [hp1] at e1
      rw [e1]
      exact e1

set_option maxRecDepth 1000000 in
/-- Witness C20: two transfers of `asset1` on the healthy ledger that holds it. -/
theorem last_transfer_wins_witness :
    ((TransferAsset (Stub.healthy [(ascii "asset1", marshalAsset asset1)]) (ascii "asset1")
        (ascii "owner3") (ascii "70") (ascii "acctB") (ascii "dest2") (ascii "hash2")).1 =
        .ok () ∧
      (TransferAsset
          (TransferAsset (Stub.healthy [(ascii "asset1", marshalAsset asset1)])
            (ascii "asset1") (ascii "owner2") (ascii "50") (ascii "acctA") (ascii "dest1")
            (ascii "hash1")).2
          (ascii "asset1") (ascii "owner3") (ascii "70") (ascii "acctB") (ascii "dest2")
          (ascii "hash2")).2 =
        (TransferAsset (Stub.healthy [(ascii "asset1", marshalAsset asset1)]) (ascii "asset1")
          (ascii "owner3") (ascii "70") (ascii "acctB") (ascii "dest2") (ascii "hash2")).2) ∧
    TransferAsset
        (TransferAsset (Stub.healthy [(ascii "asset1", marshalAsset asset1)])
          (ascii "asset1") (ascii "owner2") (ascii "50") (ascii "acctA") (ascii "dest1")
          (ascii "hash1")).2
        (ascii "asset1") (ascii "owner2") (ascii "50") (ascii "acctA") (ascii "dest1")
        (ascii "hash1") =
      TransferAsset (Stub.healthy [(ascii "asset1", marshalAsset asset1)]) (ascii "asset1")
        (ascii "owner2") (ascii "50") (ascii "acctA") (ascii "dest1") (ascii "hash1") :=
  have h : (TransferAsset (Stub.healthy [(ascii "asset1", marshalAsset asset1)])
      (ascii "asset1") (ascii "owner3") (ascii "70") (ascii "acctB") (ascii "dest2")
      (ascii "hash2")).1 = .ok () := by decide
  have hthm := last_transfer_wins (Stub.healthy [(ascii "asset1", marshalAsset asset1)])
    (ascii "asset1") (marshalAsset asset1) asset1
    (ascii "owner2") (ascii "50") (ascii "acctA") (ascii "dest1") (ascii "hash1")
    (ascii "owner3") (ascii "70") (ascii "acctB") (ascii "dest2") (ascii "hash2")
    (by decide) (by decide)
  ⟨⟨h, (hthm.1 h).1⟩, hthm.2⟩

set_option maxRecDepth 1000000 in
/-- Counterexample C20: the ledger `pickyLedger` holds `asset1` and refuses the put of one
value, the record of the transfer to `owner3`.  The transfer to `owner2` followed by the
transfer to `owner3` leaves the record of the transfer to `owner2` under `asset1`; the
transfer to `owner3` alone leaves the original record. -/
theorem last_transfer_wins_counterexample :
    pickyLedger.GetState (ascii "asset1") = .ok (some (marshalAsset asset1)) ∧
    unmarshalAsset (marshalAsset asset1) = .ok (some asset1) ∧
    (TransferAsset
        (TransferAsset pickyLedger (ascii "asset1") (ascii "owner2") (ascii "50")
          (ascii "acctA") (ascii "dest1") (ascii "hash1")).2
        (ascii "asset1") (ascii "owner3") (ascii "70") (ascii "acctB") (ascii "dest2")
        (ascii "hash2")).2.GetState (ascii "asset1") =
      .ok (some (marshalAsset (transferred asset1 (ascii "owner2") (ascii "50")
        (ascii "acctA") (ascii "dest1") (ascii "hash1")))) ∧
    (TransferAsset pickyLedger (ascii "asset1") (ascii "owner3") (ascii "70") (ascii "acctB")
        (ascii "dest2") (ascii "hash2")).2.GetState (ascii "asset1") =
      .ok (some (marshalAsset asset1)) ∧
    marshalAsset (transferred asset1 (ascii "owner2") (ascii "50") (ascii "acctA")
        (ascii "dest1") (ascii "hash1")) ≠ marshalAsset asset1 := by
  decide

end Chaincode
